import Mathlib

/-!
# Verification of the dota-vision-simulation obstruction / visibility engine

Shallow embedding of `src/vision-simulation.js`.

Conventions of the embedding:

* A grid cell key `"x,y"` is embedded as the pair `(x, y) : ℤ × ℤ`
  (`xy2key`/`key2pt` are a bijection between the integer keys occurring in
  the grid maps and such pairs).
* Tree origins sit at half-integer coordinates: the tree-marker pixel cell
  `(mx, my)` yields the origin `(mx - 1/2, my - 1/2)`.  Origins are in
  bijection with their marker cells, so the embedding indexes every
  tree-keyed map (`tree`, `tree_elevations`, `tree_state`, `tree_blocks`,
  values of `tree_relations`, wall descriptors) by the marker cell
  `(mx, my) : ℤ × ℤ`.
* A tree wall descriptor `['tree', ox, oy, Math.SQRT2]` has constant first
  and last components; its identity is the origin coordinate pair
  `(ox, oy) = (mx - 1/2, my - 1/2)`, embedded as the marker `(mx, my)`.
* JavaScript objects used as string-keyed dictionaries are embedded either
  as association lists (`List (Cell × β)`, when the source iterates over
  them) or as functions `Cell → Option β` (when the source only reads and
  updates single keys); a missing key is `none`, and dereferencing a
  missing/`null` object is the thrown `TypeError`, embedded as
  `JsError.typeError`.
-/

namespace VisionSim

/-- A grid cell, the embedding of a `"x,y"` key string with integer parts. -/
abbrev Cell : Type := ℤ × ℤ

/-- A tree identifier: the marker pixel cell of the tree.  The JS origin key
is `"(mx-0.5),(my-0.5)"`, in bijection with the marker `(mx,my)`. -/
abbrev TreeKey : Type := ℤ × ℤ

/-- The per-elevation tree wall map: corner cell ↦ list of wall descriptors
(each descriptor identified by its tree, see module comment). -/
abbrev TWMap : Type := Cell → Option (List TreeKey)

/-- A thrown JavaScript `TypeError` (reading a property of
`null`/`undefined`). -/
inductive JsError : Type where
  | typeError
deriving DecidableEq, Repr

/-- Association-list read of a JS object field: `data[key]`, mapped to the
stored elevation.  Keys written by the source are pairwise distinct, so
first-match lookup agrees with JS last-write-wins semantics. -/
def lookupGrid (data : List (Cell × ℤ)) (k : Cell) : Option ℤ :=
  (data.find? (fun e => e.1 = k)).map (·.2)

/-- `obj[key] = flagValue` on a JS object used as a set of keys:
inserting an already present key leaves the key set unchanged. -/
def insertKey (ks : List Cell) (k : Cell) : List Cell :=
  if k ∈ ks then ks else ks ++ [k]

/-- The 8 neighbor offsets scanned by `generateElevationWalls`
(`i, j ∈ {-1,0,1}`, skipping `(0,0)`, in source loop order). -/
def neighborOffsets : List (ℤ × ℤ) :=
  [(-1,-1),(-1,0),(-1,1),(0,-1),(0,1),(1,-1),(1,0),(1,1)]

/-- `generateElevationWalls(data, elevation)`: every cell of the elevation
grid whose elevation exceeds `elevation` and that has an 8-neighbor present
in the grid with elevation `≤ elevation`.  The source's labelled
`adjLoop`-with-`break` is the `List.any` over the neighbor offsets; each
qualifying entry puts its key into the wall object exactly once. -/
def generateElevationWalls (data : List (Cell × ℤ)) (elevation : ℤ) :
    List Cell :=
  (data.filter (fun e =>
    decide (e.2 > elevation) &&
      neighborOffsets.any (fun o =>
        match lookupGrid data (e.1.1 + o.1, e.1.2 + o.2) with
        | some z => decide (z ≤ elevation)
        | none => false))).map (·.1)

/-- `lightPassesCallback` of the source, with the ambient instance state it
reads (`elevationWalls[elevation]`, `ent_fow_blocker_node`,
`treeWalls[elevation]`) passed explicitly:
`!(key in ew) && !(key in fow) && !(key in tw && tw[key].length > 0)`. -/
def lightPasses (ew : List Cell) (fow : List Cell) (tw : TWMap) (k : Cell) :
    Bool :=
  !(decide (k ∈ ew)) && !(decide (k ∈ fow)) &&
    !(match tw k with
      | some l => decide (0 < l.length)
      | none => false)

/-- The four footprint corner cells of the tree with marker `m`: the source
takes `floor`/`ceil` of the half-integer origin `(mx - 1/2, my - 1/2)`
independently on each axis, in the order (floor,floor), (floor,ceil),
(ceil,floor), (ceil,ceil). -/
def treeCorners (m : TreeKey) : List Cell :=
  [(⌊(m.1 : ℚ) - 1/2⌋, ⌊(m.2 : ℚ) - 1/2⌋),
   (⌊(m.1 : ℚ) - 1/2⌋, ⌈(m.2 : ℚ) - 1/2⌉),
   (⌈(m.1 : ℚ) - 1/2⌉, ⌊(m.2 : ℚ) - 1/2⌋),
   (⌈(m.1 : ℚ) - 1/2⌉, ⌈(m.2 : ℚ) - 1/2⌉)]

/-!
## The precise-shadowcasting sweep

The repository runs `ROT.FOV.PreciseShadowcasting` from its vendored
`rot6.js`, which is not among the provided source files; the model below is
therefore built from the specification's description of the visibility
engine rather than from code.
-/

/-- The Chebyshev distance of an offset from the origin. -/
def cheb (d : ℤ × ℤ) : ℕ := max d.1.natAbs d.2.natAbs

/-- Modelled from the spec: the cell at walk position `p` of the ring at
Chebyshev distance `r`, walking the top edge left to right, then the right
edge top to bottom, then the bottom edge right to left, then the left edge
bottom to top; missing source: `rot6.js` ring/octant enumeration. -/
def posToCell (r : ℕ) (p : ℕ) : ℤ × ℤ :=
  if p < 2 * r then (-(r : ℤ) + p, -(r : ℤ))
  else if p < 4 * r then ((r : ℤ), -(r : ℤ) + (p - 2 * r))
  else if p < 6 * r then ((r : ℤ) - (p - 4 * r), (r : ℤ))
  else (-(r : ℤ), (r : ℤ) - (p - 6 * r))

/-- Modelled from the spec: the ring of cells the topology-8 sweep walks at
Chebyshev distance `r` from the origin (offsets only). -/
def ringCells (r : ℕ) : List (ℤ × ℤ) :=
  (List.range (8 * r)).map (posToCell r)

/-- Modelled from the spec: the walk position of an offset on its ring (the
inverse of `posToCell`); missing source: `rot6.js` arc computation. -/
def cellPos (r : ℕ) (d : ℤ × ℤ) : ℕ :=
  if d.2 = -(r : ℤ) ∧ d.1 < (r : ℤ) then (d.1 + r).toNat
  else if d.1 = (r : ℤ) ∧ d.2 < (r : ℤ) then 2 * r + (d.2 + r).toNat
  else if d.2 = (r : ℤ) ∧ -(r : ℤ) < d.1 then 4 * r + ((r : ℤ) - d.1).toNat
  else 6 * r + ((r : ℤ) - d.2).toNat

/-- Modelled from the spec: the slope interval (arc) subtended by the cell
at offset `d` on ring `r`, as a fraction of the full circle; missing
source: `rot6.js` arc computation. -/
def arcOf (r : ℕ) (d : ℤ × ℤ) : ℚ × ℚ :=
  (((cellPos r d : ℚ) - 1/2) / (8 * r), ((cellPos r d : ℚ) + 1/2) / (8 * r))

/-- Modelled from the spec: whether the interval `[t, b]` is fully covered
by the union of the blocked slope intervals `S` (sweep from `t` towards
`b`, at each step jumping to the furthest right end of an interval
containing the current point); missing source: `rot6.js` shadow-list
bookkeeping. -/
def coverFrom (S : List (ℚ × ℚ)) (t b : ℚ) : ℕ → Bool
  | 0 => false
  | fuel + 1 =>
    if b ≤ t then true
    else
      let cands := S.filter (fun iv => decide (iv.1 ≤ t) && decide (t < iv.2))
      if cands.isEmpty then false
      else coverFrom S ((cands.map (·.2)).foldl max t) b fuel

/-- Modelled from the spec: an arc is blocked when the accumulated shadow
intervals fully cover it. -/
def covered (S : List (ℚ × ℚ)) (a : ℚ × ℚ) : Bool :=
  coverFrom S a.1 a.2 (S.length + 1)

/-- Modelled from the spec: one ring step of the sweep.  Every cell of the
ring is visited; a cell is geometrically visible when its arc is not fully
covered by the shadows cast by opaque cells closer to the origin; every
opaque cell of the ring then adds its arc to the shadow list. -/
def sweepRing (opq : Cell → Bool) (x0 y0 : ℤ) (r : ℕ)
    (shadows : List (ℚ × ℚ)) : List (Cell × Bool) × List (ℚ × ℚ) :=
  ((ringCells r).map (fun d =>
      ((x0 + d.1, y0 + d.2), !covered shadows (arcOf r d))),
   shadows ++
     ((ringCells r).filter (fun d => opq (x0 + d.1, y0 + d.2))).map
       (arcOf r))

/-- Modelled from the spec: the rings `1..R` of the sweep, threading the
shadow list outward from the origin. -/
def sweepRings (opq : Cell → Bool) (x0 y0 : ℤ) :
    ℕ → List (Cell × Bool) × List (ℚ × ℚ)
  | 0 => ([], [])
  | r + 1 =>
    let prev := sweepRings opq x0 y0 r
    let step := sweepRing opq x0 y0 (r + 1) prev.2
    (prev.1 ++ step.1, step.2)

/-- Modelled from the spec: `fov.compute(x0, y0, R, callback)` visits the
origin (always visible) and then each ring `1..R`; the callback receives
each visited cell with its binary visibility flag, and the return value is
the number of visited cells (the `area` counter).  This list is the visit
sequence; missing source: `rot6.js` `PreciseShadowcasting.compute`. -/
def sweepVisits (opq : Cell → Bool) (x0 y0 : ℤ) (R : ℕ) :
    List (Cell × Bool) :=
  ((x0, y0), true) :: (sweepRings opq x0 y0 R).1

/-!
## Instance state

`Core` is the state an instance holds once the `initialize` callback has
run (the "ready" data); `VS` below wraps it with the pre-initialization
`null`/`undefined` fields.
-/

/-- The initialized instance state of `VisionSimulation`. -/
@[ext]
structure Core where
  /-- `this.elevationGrid`: cell key ↦ point with `z` (we keep the `z`). -/
  elevationGrid : List (Cell × ℤ)
  /-- `this.elevationValues` in discovery order. -/
  elevationValues : List ℤ
  /-- `this.gridnav` key set. -/
  gridnav : List Cell
  /-- `this.ent_fow_blocker_node` key set. -/
  ent_fow_blocker_node : List Cell
  /-- `this.tools_no_wards` key set. -/
  tools_no_wards : List Cell
  /-- the keys of `this.tree` in insertion order (values are the origin
  points, in bijection with the keys). -/
  tree : List TreeKey
  /-- `this.tree_elevations`. -/
  tree_elevations : TreeKey → Option ℤ
  /-- `this.tree_state`. -/
  tree_state : TreeKey → Option Bool
  /-- `this.tree_blocks`: origin ↦ the 4 footprint corner cells. -/
  tree_blocks : TreeKey → Option (List Cell)
  /-- `this.tree_relations`: corner cell ↦ origins covering it. -/
  tree_relations : Cell → Option (List TreeKey)
  /-- `this.treeWalls`: elevation ↦ corner ↦ descriptor list. -/
  treeWalls : ℤ → Option TWMap
  /-- `this.elevationWalls`: elevation ↦ lazily cached wall key set. -/
  elevationWalls : ℤ → Option (List Cell)
  /-- `this.lights` key set (every stored value is the flag `255`). -/
  lights : List Cell
  /-- `this.lightArea`. -/
  lightArea : ℕ
  /-- `this.area`. -/
  area : ℕ
  /-- `this.elevation` (`undefined` before the first query). -/
  elevation : Option ℤ
  /-- `this.radius`. -/
  radius : ℕ
  /-- `this.gridWidth`. -/
  gridWidth : ℤ
  /-- `this.gridHeight`. -/
  gridHeight : ℤ

/-- `obj[k] = (obj[k] || []).concat([descriptor-of t])` on a tree wall
map. -/
def twAppend (m : TWMap) (k : Cell) (t : TreeKey) : TWMap :=
  fun k' => if k' = k then some (((m k).getD []) ++ [t]) else m k'

/-- Append the descriptor of `t` at each corner of `ks` in turn
(`forEach` of the corner list). -/
def twAddAll (m : TWMap) (t : TreeKey) (ks : List Cell) : TWMap :=
  ks.foldl (fun m k => twAppend m k t) m

/-- The elevation guard `elevation < tree_elevations[i]` shared by
`setTreeWalls` and `toggleTree` (comparison against a missing entry is
falsy). -/
def elevGuard (tree_elevations : TreeKey → Option ℤ) (t : TreeKey)
    (elevation : ℤ) : Bool :=
  match tree_elevations t with
  | some e => decide (elevation < e)
  | none => false

/-- `setTreeWalls(obj, elevation, tree, tree_elevations, tree_state,
tree_blocks)` starting from the empty object `obj = {}` (as in
`initialize`): for every tree whose elevation exceeds `elevation` and that
is standing, append its descriptor at each of its footprint corners.
`tree_blocks[i]` is always present for a registered tree at this point, so
its read is embedded with a `[]` default. -/
def setTreeWalls (elevation : ℤ) (tree : List TreeKey)
    (tree_elevations : TreeKey → Option ℤ)
    (tree_state : TreeKey → Option Bool)
    (tree_blocks : TreeKey → Option (List Cell)) : TWMap :=
  tree.foldl (fun m t =>
    if elevGuard tree_elevations t elevation then
      if (tree_state t).getD false then
        twAddAll m t ((tree_blocks t).getD [])
      else m
    else m) (fun _ => none)

/-- The tree-occupancy test of the `updateVisibility` callback: some origin
registered at this corner is standing and has elevation exceeding the
active one (the source's `for`-loop with early `break` is `List.any`). -/
def treeBlocking (c : Core) (elevation : ℤ) (k : Cell) : Bool :=
  match c.tree_relations k with
  | none => false
  | some ts => ts.any (fun t =>
      (c.tree_state t).getD false &&
        (match c.tree_elevations t with
         | some e => decide (elevation < e)
         | none => false))

/-- The per-visit test of the `updateVisibility` callback after the
elevation-entry guard: `vis == 1 && !fow[key] && !treeBlocking`. -/
def visitPasses (c : Core) (z : ℤ) (v : Cell × Bool) : Bool :=
  v.2 && !(decide (v.1 ∈ c.ent_fow_blocker_node)) && !(treeBlocking c z v.1)

/-- The light map the `updateVisibility` callback accumulates over the
visit sequence: skip cells without an elevation entry, keep the cells
passing `visitPasses` (stored flag value is always `255`, so the key list
is kept). -/
def buildLights (c : Core) (z : ℤ) (visits : List (Cell × Bool)) :
    List Cell :=
  visits.foldl (fun ls v =>
    if lookupGrid c.elevationGrid v.1 = none then ls
    else if visitPasses c z v then insertKey ls v.1
    else ls) []

/-- The effective radius `radius || self.radius` (the absent argument and
`0` are falsy). -/
def effRadius (c : Core) (radius : Option ℕ) : ℕ :=
  match radius with
  | none => c.radius
  | some 0 => c.radius
  | some n => n

/-- The elevation wall set `updateVisibility` uses for active elevation
`z`: the cached entry if present, else freshly generated. -/
def activeEW (c : Core) (z : ℤ) : List Cell :=
  (c.elevationWalls z).getD (generateElevationWalls c.elevationGrid z)

/-- `updateVisibility(gX, gY, radius)`.  A `some err` second component is a
thrown `TypeError`, with the first component the instance state at the
throw: dereferencing a missing origin (`this.elevationGrid[key].z`) throws
before any field is written; a missing `treeWalls[elevation]` (never the
case for a reachable state) would throw inside the sweep, after `lights`
was reset. -/
def updateVisibility (c : Core) (gX gY : ℤ) (radius : Option ℕ) :
    Core × Option JsError :=
  let key : Cell := (gX, gY)
  let r := effRadius c radius
  match lookupGrid c.elevationGrid key with
  | none => (c, some .typeError)
  | some z =>
    let ew := activeEW c z
    let c1 := { c with
      elevation := some z,
      elevationWalls := fun e =>
        if e = z then some ew else c.elevationWalls e }
    match c.treeWalls z with
    | none => ({ c1 with lights := [] }, some .typeError)
    | some tw =>
      let opq := fun k => !(lightPasses ew c.ent_fow_blocker_node tw k)
      let visits := sweepVisits opq gX gY r
      let lights := buildLights c z visits
      ({ c1 with
          lights := lights,
          area := visits.length,
          lightArea := lights.length }, none)

/-- One corner of the removal pass of `toggleTree`: delete every descriptor
of tree `t` from `treeWalls[elevation][k]` (the downward `splice` loop
removes every match).  A missing entry is the source's
`treeWalls[elevation][ptB.key].length` `TypeError`, embedded as `none`. -/
def patchCorner (m : TWMap) (t : TreeKey) (k : Cell) : Option TWMap :=
  match m k with
  | none => none
  | some l => some (fun k' =>
      if k' = k then some (l.filter (fun d => !(decide (d = t)))) else m k')

/-- The per-elevation patch of `toggleTree` for one tree: remove the tree's
descriptors from each footprint corner, then, if the tree is now standing,
append a fresh descriptor at each corner. -/
def togglePatchLevel (blocks : List Cell) (t : TreeKey) (standingNow : Bool)
    (m : TWMap) : Option TWMap := do
  let m ← blocks.foldlM (fun m k => patchCorner m t k) m
  pure (if standingNow then twAddAll m t blocks else m)

/-- One elevation level of the `toggleTree` patch for one tree: when the
level is below the tree's elevation, remove-then-maybe-reinsert the tree's
descriptors at `treeWalls[L]`.  `none` is a thrown `TypeError` (a missing
`tree_blocks` entry or wall map — impossible in reachable states). -/
def toggleStep (t : TreeKey) (st : Bool) (c : Core) (L : ℤ) : Option Core :=
  if elevGuard c.tree_elevations t L then do
    let blocks ← c.tree_blocks t
    let m ← c.treeWalls L
    let m' ← togglePatchLevel blocks t st m
    pure { c with
      treeWalls := fun L' => if L' = L then some m' else c.treeWalls L' }
  else pure c

/-- The body of `toggleTree` for one origin pt of `tree_relations[key]`:
flip the standing flag, then patch `treeWalls[elevation]` for every known
elevation below the tree's elevation (the `elevationValues.forEach`
loop). -/
def toggleOneTree (c : Core) (t : TreeKey) : Option Core :=
  let st := !((c.tree_state t).getD false)
  let c0 := { c with
    tree_state := fun t' => if t' = t then some st else c.tree_state t' }
  c0.elevationValues.foldlM (toggleStep t st) c0

/-- `toggleTree(x, y)`.  Returns the new state and the returned boolean;
`none` is a thrown `TypeError` mid-toggle (unreachable from well-formed
states, see `toggleTree_ok`). -/
def toggleTree (c : Core) (x y : ℤ) : Option (Core × Bool) :=
  let key : Cell := (x, y)
  match c.tree_relations key with
  | none => some (c, false)
  | some treePts => do
    let c' ← treePts.foldlM (fun c t => toggleOneTree c t) c
    pure (c', true)

/-- `setRadius(r)`. -/
def setRadius (c : Core) (r : ℕ) : Core := { c with radius := r }

/-- The ready-state body of `isValidXY`. -/
def coreIsValidXY (c : Core) (x y : ℤ)
    (bCheckGridnav bCheckToolsNoWards bCheckTreeState : Bool) : Bool :=
  let key : Cell := (x, y)
  let tb := if bCheckTreeState then
      (match c.tree_relations key with
       | none => false
       | some ts => ts.any (fun t => (c.tree_state t).getD false))
    else false
  decide (0 ≤ x) && decide (x < c.gridWidth) &&
    decide (0 ≤ y) && decide (y < c.gridHeight) &&
    (!bCheckGridnav || !(decide (key ∈ c.gridnav))) &&
    (!bCheckToolsNoWards || !(decide (key ∈ c.tools_no_wards))) &&
    (!bCheckTreeState || !tb)

/-!
## Initialization

`imageHandler.js` (the raster decoding collaborator) is out of scope; an
image is a function from pixel coordinates to `(r, g, b)` channel values.
The five bands sit at x-offsets `0, w, 2w, 3w, 4w` (elevation, tree
markers, gridnav, fow blockers, no-wards).  The scan visits each band
pixel once; the scan order inside `imageHandler.scan` is not in the
provided sources, and no behaviour below depends on it beyond list order,
so row-major order is used.
-/

/-- A decoded raster: pixel ↦ `(r, g, b)`. -/
abbrev Img : Type := ℕ × ℕ → ℤ × ℤ × ℤ

/-- The pixels of one band, in scan (row-major) order, as band-local
coordinates. -/
def bandScan (w h : ℕ) : List (ℕ × ℕ) :=
  (List.range h).flatMap (fun y => (List.range w).map (fun x => (x, y)))

/-- `ImageXYtoGridXY(x, y) = (x, gridHeight - y - 1)`. -/
def ImageXYtoGridXY (h : ℕ) (p : ℕ × ℕ) : Cell :=
  ((p.1 : ℤ), (h : ℤ) - p.2 - 1)

/-- The channel values band `b` hands the pixel handler at band-local
coordinates `p`. -/
def bandPx (img : Img) (w b : ℕ) (p : ℕ × ℕ) : ℤ × ℤ × ℤ :=
  img (b * w + p.1, p.2)

/-- `blackPixelHandler` over a whole band: the cells whose red channel is
`0`. -/
def blackScan (img : Img) (w h b : ℕ) : List Cell :=
  ((bandScan w h).filter
    (fun p => decide ((bandPx img w b p).1 = 0))).map (ImageXYtoGridXY h)

/-- The marker-cell test of `treeElevationPixelHandler`: green and blue
channels are `0`. -/
def isTreeMarker (img : Img) (w : ℕ) (p : ℕ × ℕ) : Bool :=
  decide ((bandPx img w 1 p).2.1 = 0) && decide ((bandPx img w 1 p).2.2 = 0)

/-- `treeElevationPixelHandler` over the tree band: each marker cell with
its blocking elevation `red + 40` (the key is the marker cell, standing for
the origin at `(-1/2, -1/2)` from it, see module comment). -/
def treeRegistry (img : Img) (w h : ℕ) : List (TreeKey × ℤ) :=
  ((bandScan w h).filter (isTreeMarker img w)).map
    (fun p => (ImageXYtoGridXY h p, (bandPx img w 1 p).1 + 40))

/-- `tree_relations` as built by `treeElevationPixelHandler`: each marker
appends its origin to the relation list of each of its 4 footprint corners
(`tree_relations[corner] = (tree_relations[corner] || []).concat(origin)`,
the same append step as on wall maps). -/
def buildRelations (ms : List TreeKey) : Cell → Option (List TreeKey) :=
  ms.foldl (fun rel t => twAddAll rel t (treeCorners t)) (fun _ => none)

/-- `elevationValues` collection: push each newly seen elevation value
(`indexOf == -1` guard). -/
def collectValues (l : List ℤ) : List ℤ :=
  l.foldl (fun acc z => if z ∈ acc then acc else acc ++ [z]) []

/-- The elevation band parse: every band cell with its red channel as
`z`. -/
def elevationScan (img : Img) (w h : ℕ) : List (Cell × ℤ) :=
  (bandScan w h).map (fun p => (ImageXYtoGridXY h p, (bandPx img w 0 p).1))

/-- The keys of `this.tree` after the tree band parse. -/
def initTree (img : Img) (w h : ℕ) : List TreeKey :=
  (treeRegistry img w h).map (·.1)

/-- `this.tree_elevations` after the tree band parse. -/
def initTreeElevations (img : Img) (w h : ℕ) : TreeKey → Option ℤ :=
  fun t => lookupGrid (treeRegistry img w h) t

/-- `this.tree_state` after the tree band parse: every registered tree
starts standing. -/
def initTreeState (img : Img) (w h : ℕ) : TreeKey → Option Bool :=
  fun t => if t ∈ initTree img w h then some true else none

/-- `this.tree_blocks` after the tree band parse. -/
def initTreeBlocks (img : Img) (w h : ℕ) : TreeKey → Option (List Cell) :=
  fun t => if t ∈ initTree img w h then some (treeCorners t) else none

/-- `this.elevationValues` after the elevation band parse. -/
def initValues (img : Img) (w h : ℕ) : List ℤ :=
  collectValues ((bandScan w h).map (fun p => (bandPx img w 0 p).1))

/-- `this.treeWalls` after the `elevationValues.forEach` loop of
`initialize`: one `setTreeWalls` map per known elevation. -/
def initTreeWalls (img : Img) (w h : ℕ) : ℤ → Option TWMap :=
  fun L =>
    if L ∈ initValues img w h then
      some (setTreeWalls L (initTree img w h) (initTreeElevations img w h)
        (initTreeState img w h) (initTreeBlocks img w h))
    else none

/-- The state built by the `imageHandler.load` callback of `initialize` on
a successfully decoded image: parse the five bands, register the trees
(all standing), and build `treeWalls` for every known elevation with
`setTreeWalls`; `elevationWalls` starts empty (computed lazily per
query). -/
def initCore (img : Img) (w h : ℕ) (radius : ℕ) : Core :=
  { elevationGrid := elevationScan img w h
    elevationValues := initValues img w h
    gridnav := blackScan img w h 2
    ent_fow_blocker_node := blackScan img w h 3
    tools_no_wards := blackScan img w h 4
    tree := initTree img w h
    tree_elevations := initTreeElevations img w h
    tree_state := initTreeState img w h
    tree_blocks := initTreeBlocks img w h
    tree_relations := buildRelations (initTree img w h)
    treeWalls := initTreeWalls img w h
    elevationWalls := fun _ => none
    lights := []
    lightArea := 0
    area := 0
    elevation := none
    radius := radius
    gridWidth := (w : ℤ)
    gridHeight := (h : ℤ) }

/-!
## The instance wrapper and the not-ready states

A freshly constructed `VisionSimulation` has `ready = false` and none of
the grid/tree fields (`undefined` until `initialize`'s load callback runs);
the query methods other than `isValidXY` dereference those fields without a
readiness check.
-/

/-- A `VisionSimulation` instance: constructor fields plus the optional
ready data. -/
structure VS where
  ready : Bool
  radius : ℕ
  gridWidth : ℤ
  gridHeight : ℤ
  core : Option Core

/-- The constructor: `radius = opts.radius || parseInt(1600/64)`, world
bounds to grid dimensions, `ready = false`, and no terrain fields yet. -/
def mkVisionSimulation (worldMinX worldMinY worldMaxX worldMaxY : ℤ)
    (optsRadius : Option ℕ) : VS :=
  { ready := false
    radius := match optsRadius with
      | none => 25
      | some 0 => 25
      | some n => n
    gridWidth := (worldMaxX - worldMinX) / 64 + 1
    gridHeight := (worldMaxY - worldMinY) / 64 + 1
    core := none }

/-- `updateVisibility` on an instance: with no initialized state it throws
(`this.elevationGrid[key].z` on a `null`/`undefined` grid). -/
def vsUpdateVisibility (vs : VS) (gX gY : ℤ) (radius : Option ℕ) :
    VS × Option JsError :=
  match vs.core with
  | none => (vs, some .typeError)
  | some c =>
    let r := updateVisibility c gX gY radius
    ({ vs with core := some r.1 }, r.2)

/-- `toggleTree` on an instance: with no initialized state it throws
(`this.tree_relations[key]` on an `undefined` map). -/
def vsToggleTree (vs : VS) (x y : ℤ) : VS × Option JsError × Bool :=
  match vs.core with
  | none => (vs, some .typeError, false)
  | some c =>
    match toggleTree c x y with
    | none => (vs, some .typeError, false)
    | some r => ({ vs with core := some r.1 }, none, r.2)

/-- `isValidXY` on an instance: the only query with an explicit readiness
check (`if (!this.ready) return false`). -/
def vsIsValidXY (vs : VS) (x y : ℤ)
    (bCheckGridnav bCheckToolsNoWards bCheckTreeState : Bool) : Bool :=
  if !vs.ready then false
  else match vs.core with
    | none => false
    | some c => coreIsValidXY c x y bCheckGridnav bCheckToolsNoWards
        bCheckTreeState

/-!
## The `key2pt` memo cache

`key2pt_cache` is a module-level variable of `vision-simulation.js`: a
single dictionary shared by every instance in the process.  `initialize`
never clears it; its cache-priming loop writes `key2pt_cache[pt.key] = pt`
for each cell of the grid being initialized — unconditionally overwriting
any existing entry at that key with the freshly built point, and leaving
every entry at a key outside the grid untouched.  For the integer cell
keys the loop writes, parsing the key returns exactly the cell, so the
cache is modelled as an association list from cells to points with
`key2pt`'s parse being the identity.
-/

/-- The module-level `key2pt_cache`. -/
abbrev Key2ptCache : Type := List (Cell × Cell)

/-- `key2pt(key)`: return the cached point when present, otherwise parse
the key and cache the result.  The cache is an argument and a result — it
is module state, not instance state. -/
def key2pt (cache : Key2ptCache) (k : Cell) : Cell × Key2ptCache :=
  match cache.find? (fun e => e.1 = k) with
  | some e => (e.2, cache)
  | none => (k, cache ++ [(k, k)])

/-- The grid cells the cache-priming loop of `initialize` walks (`i`
outer, `j` inner). -/
def primeCells (w h : ℕ) : List Cell :=
  (List.range w).flatMap (fun i =>
    (List.range h).map (fun j => (((i : ℤ), (j : ℤ)) : Cell)))

/-- The cache-priming loop of `initialize`: `key2pt_cache[pt.key] = pt`
for every grid cell.  The assignment is unconditional — a key already
present has its entry overwritten in place with the freshly built point
(the parse being the identity, that point is the cell itself); a missing
key is appended.  No key is ever removed. -/
def primeKey2ptCache (cache : Key2ptCache) (w h : ℕ) : Key2ptCache :=
  (primeCells w h).foldl
    (fun cache k =>
      if (cache.map (·.1)).contains k then
        cache.map (fun e => if e.1 = k then (k, k) else e)
      else cache ++ [(k, k)])
    cache

/-!
## Well-formedness and reachability

`WF` collects the structural facts that hold for every state the instance
can actually be in; `Reachable` is the closure of initialization under the
mutating operations.
-/

/-- Read `treeWalls[L][k]` with `undefined ↦ []` defaults (for stating
invariants; the code itself distinguishes the missing cases, see
`patchCorner`). -/
def twGet (c : Core) (L : ℤ) (k : Cell) : List TreeKey :=
  (((c.treeWalls L).getD (fun _ => none)) k).getD []

/-- Structural well-formedness of an initialized state. -/
structure WF (c : Core) : Prop where
  gridNodup : (c.elevationGrid.map (·.1)).Nodup
  gridDom : ∀ k : Cell, (lookupGrid c.elevationGrid k).isSome ↔
    0 ≤ k.1 ∧ k.1 < c.gridWidth ∧ 0 ≤ k.2 ∧ k.2 < c.gridHeight
  valuesNodup : c.elevationValues.Nodup
  valuesComplete : ∀ k z, lookupGrid c.elevationGrid k = some z →
    z ∈ c.elevationValues
  treeNodup : c.tree.Nodup
  treeElevDom : ∀ t, (c.tree_elevations t).isSome ↔ t ∈ c.tree
  treeStateDom : ∀ t, (c.tree_state t).isSome ↔ t ∈ c.tree
  treeBlocksEq : ∀ t, c.tree_blocks t =
    if t ∈ c.tree then some (treeCorners t) else none
  relationsMem : ∀ k t, t ∈ (c.tree_relations k).getD [] ↔
    t ∈ c.tree ∧ k ∈ treeCorners t
  relationsNodup : ∀ k, ((c.tree_relations k).getD []).Nodup
  wallsDom : ∀ L, (c.treeWalls L).isSome ↔ L ∈ c.elevationValues
  wallsDefined : ∀ L ∈ c.elevationValues, ∀ t ∈ c.tree,
    elevGuard c.tree_elevations t L = true →
    ∀ k ∈ treeCorners t, (((c.treeWalls L).getD (fun _ => none)) k).isSome
  wallsCount : ∀ L ∈ c.elevationValues, ∀ (k : Cell) (t : TreeKey),
    (twGet c L k).count t =
      if t ∈ c.tree ∧ elevGuard c.tree_elevations t L = true ∧
         (c.tree_state t).getD false = true ∧ k ∈ treeCorners t
      then 1 else 0

/-- One wall map after the `toggleTree` patch for one tree `t` with new
standing state `st`: each footprint corner loses every descriptor of `t`
and then, if `st`, gains a fresh one (specification vocabulary for
`togglePatchLevel`). -/
def patchedMap (m : TWMap) (t : TreeKey) (st : Bool) : TWMap :=
  fun k' =>
    if k' ∈ treeCorners t then
      some ((((m k').getD []).filter (fun d => !(decide (d = t)))) ++
        (if st then [t] else []))
    else m k'

/-- The wall-map family after `toggleTree` has processed one tree `t`
whose new standing state is `st`: at every known elevation below the
tree's elevation, each footprint corner first loses every descriptor of
`t` and then, if `st`, gains a fresh one; everything else is untouched
(specification vocabulary for `toggleOneTree`). -/
def patchedTW (vals : List ℤ) (c : Core) (t : TreeKey) (st : Bool) :
    ℤ → Option TWMap :=
  fun L =>
    if L ∈ vals ∧ elevGuard c.tree_elevations t L = true then
      some (patchedMap ((c.treeWalls L).getD (fun _ => none)) t st)
    else c.treeWalls L

/-- `tree_state` after the flip of one tree (specification vocabulary for
`toggleOneTree`). -/
def flipState (c : Core) (t : TreeKey) : TreeKey → Option Bool :=
  fun t' =>
    if t' = t then some (!((c.tree_state t).getD false))
    else c.tree_state t'

/-- The fields `toggleTree` leaves untouched (everything except
`tree_state` and `treeWalls`). -/
structure RegFrame (c c' : Core) : Prop where
  grid : c'.elevationGrid = c.elevationGrid
  values : c'.elevationValues = c.elevationValues
  gnav : c'.gridnav = c.gridnav
  fow : c'.ent_fow_blocker_node = c.ent_fow_blocker_node
  noWards : c'.tools_no_wards = c.tools_no_wards
  tree : c'.tree = c.tree
  elevs : c'.tree_elevations = c.tree_elevations
  blocks : c'.tree_blocks = c.tree_blocks
  relations : c'.tree_relations = c.tree_relations
  ewalls : c'.elevationWalls = c.elevationWalls
  lights : c'.lights = c.lights
  lightArea : c'.lightArea = c.lightArea
  area : c'.area = c.area
  elevation : c'.elevation = c.elevation
  radius : c'.radius = c.radius
  gridWidth : c'.gridWidth = c.gridWidth
  gridHeight : c'.gridHeight = c.gridHeight

/-- The states an instance can reach: a successful initialization followed
by any sequence of (non-throwing) queries and mutations. -/
inductive Reachable : Core → Prop where
  | init (img : Img) (w h radius : ℕ) : Reachable (initCore img w h radius)
  | toggle {c : Core} (x y : ℤ) {c' : Core} {b : Bool} : Reachable c →
      toggleTree c x y = some (c', b) → Reachable c'
  | update {c : Core} (gX gY : ℤ) (radius : Option ℕ) : Reachable c →
      Reachable (updateVisibility c gX gY radius).1
  | setR {c : Core} (r : ℕ) : Reachable c → Reachable (setRadius c r)

/-!
## The query visit sequence, and concrete instances

`queryVisits` names the visit sequence of one `updateVisibility` call: the
sweep run with the opacity callback over the active elevation's wall data.
The images below give small concrete instances on which every statement can
be evaluated.
-/

/-- The opacity callback `updateVisibility` hands the sweep for active
elevation `z` (the negation of `lightPassesCallback`). -/
def queryOpq (c : Core) (z : ℤ) : Cell → Bool :=
  fun k => !(lightPasses (activeEW c z) c.ent_fow_blocker_node
    ((c.treeWalls z).getD (fun _ => none)) k)

/-- The visit sequence of `updateVisibility c gX gY r` once the active
elevation has resolved to `z`. -/
def queryVisits (c : Core) (gX gY : ℤ) (r : Option ℕ) (z : ℤ) :
    List (Cell × Bool) :=
  sweepVisits (queryOpq c z) gX gY (effRadius c r)

/-- A flat map image: every pixel of every band is `(7, 1, 1)` — constant
elevation `7`, no tree markers, empty gridnav, FoW-blocker and no-wards
bands. -/
def flatImg : Img := fun _ => (7, 1, 1)

/-- A 5×5 flat instance with default radius 2. -/
def flat5c : Core := initCore flatImg 5 5 2

/-- The flat 5×5 instance after `setRadius(0)`. -/
def flat5r0 : Core := setRadius flat5c 0

/-- The flat map with a single tree: tree-band pixel `(2, 2)` is
`(0, 0, 0)`, so grid cell `(2, 2)` carries a tree marker of blocking
elevation `40`; every other pixel is as in `flatImg`. -/
def treeImg : Img := fun q => if q = (7, 2) then (0, 0, 0) else (7, 1, 1)

/-- A 5×5 instance with one tree, default radius 2. -/
def treeCore : Core := initCore treeImg 5 5 2

/-- The state after toggling the tree of `treeCore` at its own corner
`(2, 2)`. -/
def treeToggled1c : Core :=
  ((toggleTree treeCore 2 2).getD (treeCore, false)).1

/-- The state after toggling the same tree back. -/
def treeToggled2c : Core :=
  ((toggleTree treeToggled1c 2 2).getD (treeCore, false)).1

/-- A freshly constructed instance over the full map's world bounds:
`ready` is `false` and no terrain fields exist yet. -/
def notReadyVS : VS := mkVisionSimulation (-8288) (-8288) 8288 8288 none

/-!
## Basic lemmas about the geometry helpers
-/

theorem floor_sub_half (n : ℤ) : ⌊(n : ℚ) - 1/2⌋ = n - 1 := by
  rw [Int.floor_eq_iff]
  constructor
  · push_cast
    linarith
  · push_cast
    linarith

theorem ceil_sub_half (n : ℤ) : ⌈(n : ℚ) - 1/2⌉ = n := by
  rw [Int.ceil_eq_iff]
  constructor
  · linarith
  · linarith

theorem treeCorners_eq (m : TreeKey) :
    treeCorners m = [(m.1 - 1, m.2 - 1), (m.1 - 1, m.2),
                     (m.1, m.2 - 1), (m.1, m.2)] := by
  unfold treeCorners
  rw [floor_sub_half m.1, floor_sub_half m.2, ceil_sub_half m.1,
    ceil_sub_half m.2]

theorem treeCorners_nodup (m : TreeKey) : (treeCorners m).Nodup := by
  rw [treeCorners_eq]
  simp [Prod.ext_iff]

theorem ringCells_length (r : ℕ) : (ringCells r).length = 8 * r := by
  simp [ringCells]

theorem posToCell_cheb {r p : ℕ} (hp : p < 8 * r) :
    cheb (posToCell r p) = r := by
  unfold posToCell cheb
  split_ifs <;> simp <;> omega

theorem mem_ringCells {r : ℕ} (d : ℤ × ℤ) (hr : 1 ≤ r) :
    d ∈ ringCells r ↔ cheb d = r := by
  simp only [ringCells, List.mem_map, List.mem_range]
  constructor
  · rintro ⟨p, hp, rfl⟩
    exact posToCell_cheb hp
  · intro h
    obtain ⟨x, y⟩ := d
    unfold cheb at h
    simp only at h
    by_cases hy : y = -(r : ℤ) ∧ x < (r : ℤ)
    · refine ⟨(x + r).toNat, by omega, ?_⟩
      unfold posToCell
      rw [if_pos (by omega)]
      simp only [Prod.mk.injEq]
      omega
    · by_cases hx : x = (r : ℤ) ∧ y < (r : ℤ)
      · refine ⟨2 * r + (y + r).toNat, by omega, ?_⟩
        unfold posToCell
        rw [if_neg (by omega), if_pos (by omega)]
        simp only [Prod.mk.injEq]
        omega
      · by_cases hy' : y = (r : ℤ) ∧ -(r : ℤ) < x
        · refine ⟨4 * r + ((r : ℤ) - x).toNat, by omega, ?_⟩
          unfold posToCell
          rw [if_neg (by omega), if_neg (by omega), if_pos (by omega)]
          simp only [Prod.mk.injEq]
          omega
        · refine ⟨6 * r + ((r : ℤ) - y).toNat, by omega, ?_⟩
          unfold posToCell
          rw [if_neg (by omega), if_neg (by omega), if_neg (by omega)]
          simp only [Prod.mk.injEq]
          omega

theorem posToCell_injOn {r : ℕ} {p q : ℕ} (hp : p < 8 * r) (hq : q < 8 * r)
    (h : posToCell r p = posToCell r q) : p = q := by
  unfold posToCell at h
  split_ifs at h <;> (simp only [Prod.mk.injEq] at h; omega)

theorem ringCells_nodup (r : ℕ) : (ringCells r).Nodup := by
  unfold ringCells
  apply List.Nodup.map_on
  · intro p hp q hq h
    exact posToCell_injOn (List.mem_range.mp hp) (List.mem_range.mp hq) h
  · exact List.nodup_range _

/-!
## Lemmas about the shared dictionary helpers
-/

theorem mem_insertKey {ls : List Cell} {k a : Cell} :
    a ∈ insertKey ls k ↔ a ∈ ls ∨ a = k := by
  unfold insertKey
  split
  · rename_i h
    constructor
    · exact Or.inl
    · rintro (ha | rfl)
      · exact ha
      · exact h
  · simp

theorem nodup_insertKey {ls : List Cell} {k : Cell} (h : ls.Nodup) :
    (insertKey ls k).Nodup := by
  unfold insertKey
  split
  · exact h
  · rename_i hk
    simp [List.nodup_append, h, hk]

theorem lookupGrid_isSome {data : List (Cell × ℤ)} {k : Cell} :
    (lookupGrid data k).isSome ↔ k ∈ data.map (·.1) := by
  unfold lookupGrid
  cases hf : data.find? (fun e => e.1 = k) with
  | none =>
    simp only [Option.map_none', Option.isSome_none, Bool.false_eq_true,
      false_iff]
    intro hk
    rcases List.mem_map.mp hk with ⟨e, he, rfl⟩
    have := List.find?_eq_none.mp hf e he
    simp at this
  | some e =>
    simp only [Option.map_some', Option.isSome_some, true_iff]
    have hk : e.1 = k := by simpa using List.find?_some hf
    exact hk ▸ List.mem_map.mpr ⟨e, List.mem_of_find?_eq_some hf, rfl⟩

theorem lookupGrid_eq_none {data : List (Cell × ℤ)} {k : Cell} :
    lookupGrid data k = none ↔ k ∉ data.map (·.1) := by
  rw [← @lookupGrid_isSome data k, Option.not_isSome_iff_eq_none]

theorem lookupGrid_eq_some_of_mem {data : List (Cell × ℤ)} {k : Cell}
    {z : ℤ} (hnd : (data.map (·.1)).Nodup) (h : (k, z) ∈ data) :
    lookupGrid data k = some z := by
  induction data with
  | nil => cases h
  | cons e data ih =>
    simp only [List.map_cons, List.nodup_cons] at hnd
    rcases List.mem_cons.mp h with rfl | h'
    · simp [lookupGrid]
    · have hne : ¬(e.1 = k) := by
        intro he
        exact hnd.1 (he ▸ (List.mem_map.mpr ⟨(k, z), h', rfl⟩))
      simpa [lookupGrid, List.find?, hne] using ih hnd.2 h'

theorem mem_of_lookupGrid_eq_some {data : List (Cell × ℤ)} {k : Cell}
    {z : ℤ} (h : lookupGrid data k = some z) : (k, z) ∈ data := by
  unfold lookupGrid at h
  rcases Option.map_eq_some'.mp h with ⟨e, he, hz⟩
  have hk : e.1 = k := by simpa using List.find?_some he
  have hm := List.mem_of_find?_eq_some he
  obtain ⟨e1, e2⟩ := e
  simp only at hk hz
  subst hk
  subst hz
  exact hm

theorem collectValues_fold_mem (l : List ℤ) (acc : List ℤ) (z : ℤ) :
    z ∈ l.foldl (fun acc z => if z ∈ acc then acc else acc ++ [z]) acc ↔
      z ∈ acc ∨ z ∈ l := by
  induction l generalizing acc with
  | nil => simp
  | cons a l ih =>
    simp only [List.foldl_cons]
    rw [ih]
    by_cases ha : a ∈ acc
    · rw [if_pos ha]
      constructor
      · rintro (h | h)
        · exact Or.inl h
        · exact Or.inr (List.mem_cons_of_mem _ h)
      · rintro (h | h)
        · exact Or.inl h
        · rcases List.mem_cons.mp h with rfl | h'
          · exact Or.inl ha
          · exact Or.inr h'
    · rw [if_neg ha]
      simp only [List.mem_append, List.mem_singleton, List.mem_cons]
      tauto

theorem collectValues_fold_nodup (l : List ℤ) (acc : List ℤ)
    (h : acc.Nodup) :
    (l.foldl (fun acc z => if z ∈ acc then acc else acc ++ [z]) acc).Nodup := by
  induction l generalizing acc with
  | nil => exact h
  | cons a l ih =>
    simp only [List.foldl_cons]
    by_cases ha : a ∈ acc
    · rw [if_pos ha]
      exact ih acc h
    · rw [if_neg ha]
      exact ih _ (by simp [List.nodup_append, h, ha])

theorem mem_collectValues {l : List ℤ} {z : ℤ} :
    z ∈ collectValues l ↔ z ∈ l := by
  unfold collectValues
  rw [collectValues_fold_mem]
  simp

theorem collectValues_nodup (l : List ℤ) : (collectValues l).Nodup :=
  collectValues_fold_nodup l [] List.nodup_nil

/-!
## Lemmas about the band scan
-/

theorem mem_bandScan {w h : ℕ} {p : ℕ × ℕ} :
    p ∈ bandScan w h ↔ p.1 < w ∧ p.2 < h := by
  obtain ⟨x, y⟩ := p
  simp only [bandScan, List.mem_flatMap, List.mem_map, List.mem_range,
    Prod.mk.injEq]
  constructor
  · rintro ⟨y', hy', x', hx', rfl, rfl⟩
    exact ⟨hx', hy'⟩
  · rintro ⟨hx, hy⟩
    exact ⟨y, hy, x, hx, rfl, rfl⟩

theorem bandScan_nodup (w h : ℕ) : (bandScan w h).Nodup := by
  unfold bandScan
  rw [List.nodup_flatMap]
  constructor
  · intro y _
    exact List.Nodup.map (fun a b hab => by simpa using hab)
      (List.nodup_range w)
  · refine (List.pairwise_lt_range h).imp ?_
    intro y₁ y₂ hlt p hp₁ hp₂
    simp only [List.mem_map, List.mem_range] at hp₁ hp₂
    obtain ⟨x₁, _, rfl⟩ := hp₁
    obtain ⟨x₂, _, h₂⟩ := hp₂
    simp only [Prod.mk.injEq] at h₂
    omega

theorem ImageXYtoGridXY_inj {h : ℕ} {p q : ℕ × ℕ}
    (hpq : ImageXYtoGridXY h p = ImageXYtoGridXY h q) : p = q := by
  obtain ⟨px, py⟩ := p
  obtain ⟨qx, qy⟩ := q
  simp only [ImageXYtoGridXY, Prod.mk.injEq] at hpq
  obtain ⟨h1, h2⟩ := hpq
  simp only [Prod.mk.injEq]
  omega

theorem mem_bandScan_map {w h : ℕ} {k : Cell} :
    k ∈ (bandScan w h).map (ImageXYtoGridXY h) ↔
      0 ≤ k.1 ∧ k.1 < (w : ℤ) ∧ 0 ≤ k.2 ∧ k.2 < (h : ℤ) := by
  obtain ⟨kx, ky⟩ := k
  simp only [List.mem_map]
  constructor
  · rintro ⟨p, hp, heq⟩
    obtain ⟨hx, hy⟩ := mem_bandScan.mp hp
    simp only [ImageXYtoGridXY, Prod.mk.injEq] at heq
    omega
  · rintro ⟨h1, h2, h3, h4⟩
    refine ⟨(kx.toNat, ((h : ℤ) - ky - 1).toNat), mem_bandScan.mpr ?_, ?_⟩
    · constructor <;> omega
    · simp only [ImageXYtoGridXY, Prod.mk.injEq]
      omega

/-!
## Lemmas about the sweep
-/

theorem arcOf_lt {r : ℕ} (hr : 1 ≤ r) (d : ℤ × ℤ) :
    (arcOf r d).1 < (arcOf r d).2 := by
  unfold arcOf
  have h8 : (0 : ℚ) < 8 * r := by positivity
  simp only
  rw [div_lt_div_iff₀ h8 h8]
  nlinarith

theorem covered_nil_of_lt {a : ℚ × ℚ} (h : a.1 < a.2) :
    covered [] a = false := by
  simp [covered, coverFrom, not_le.mpr h]

theorem sweepRings_transparent {opq : Cell → Bool}
    (hopq : ∀ k, opq k = false) (x0 y0 : ℤ) (R : ℕ) :
    sweepRings opq x0 y0 R =
      ((List.range R).flatMap (fun i =>
        (ringCells (i + 1)).map (fun d => ((x0 + d.1, y0 + d.2), true))),
       []) := by
  induction R with
  | zero => simp [sweepRings]
  | succ R ih =>
    rw [sweepRings, ih]
    simp only [sweepRing]
    rw [List.range_succ, List.flatMap_append]
    refine Prod.ext ?_ ?_
    · simp only [List.flatMap_cons, List.flatMap_nil, List.append_nil]
      congr 1
      apply List.map_congr_left
      intro d _
      rw [covered_nil_of_lt (arcOf_lt (Nat.succ_le_succ (Nat.zero_le R)) d)]
      rfl
    · simp only
      rw [List.filter_eq_nil_iff.mpr (by intro d _; simp [hopq])]
      simp

theorem sweepVisits_transparent {opq : Cell → Bool}
    (hopq : ∀ k, opq k = false) (x0 y0 : ℤ) (R : ℕ) :
    sweepVisits opq x0 y0 R =
      ((x0, y0), true) :: (List.range R).flatMap (fun i =>
        (ringCells (i + 1)).map (fun d => ((x0 + d.1, y0 + d.2), true))) := by
  unfold sweepVisits
  rw [sweepRings_transparent hopq]

theorem sweepRings_fst_map {opq : Cell → Bool} (x0 y0 : ℤ) (R : ℕ) :
    ((sweepRings opq x0 y0 R).1).map (·.1) =
      (List.range R).flatMap (fun i =>
        (ringCells (i + 1)).map (fun d => (x0 + d.1, y0 + d.2))) := by
  induction R with
  | zero => simp [sweepRings]
  | succ R ih =>
    rw [sweepRings]
    simp only [sweepRing, List.map_append, ih, List.map_map]
    rw [List.range_succ, List.flatMap_append]
    simp [Function.comp_def]

theorem sweepVisits_fst_map {opq : Cell → Bool} (x0 y0 : ℤ) (R : ℕ) :
    ((sweepVisits opq x0 y0 R).map (·.1)) =
      (x0, y0) :: (List.range R).flatMap (fun i =>
        (ringCells (i + 1)).map (fun d => (x0 + d.1, y0 + d.2))) := by
  unfold sweepVisits
  simp only [List.map_cons]
  rw [sweepRings_fst_map]

theorem mem_ringShift {x0 y0 : ℤ} {r : ℕ} (hr : 1 ≤ r) {k : Cell} :
    k ∈ (ringCells r).map (fun d => ((x0 + d.1 : ℤ), (y0 + d.2 : ℤ))) ↔
      cheb (k.1 - x0, k.2 - y0) = r := by
  simp only [List.mem_map]
  constructor
  · rintro ⟨d, hd, rfl⟩
    have := (mem_ringCells d hr).mp hd
    simpa using this
  · intro h
    refine ⟨(k.1 - x0, k.2 - y0), (mem_ringCells _ hr).mpr h, ?_⟩
    simp

theorem sweepCells_mem {opq : Cell → Bool} (x0 y0 : ℤ) (R : ℕ) {k : Cell} :
    k ∈ ((sweepVisits opq x0 y0 R).map (·.1)) ↔
      cheb (k.1 - x0, k.2 - y0) ≤ R := by
  rw [sweepVisits_fst_map]
  simp only [List.mem_cons, List.mem_flatMap, List.mem_range]
  constructor
  · rintro (rfl | ⟨i, hi, hk⟩)
    · simp [cheb]
    · have := (mem_ringShift (Nat.succ_le_succ (Nat.zero_le i))).mp hk
      omega
  · intro h
    rcases Nat.eq_zero_or_pos (cheb (k.1 - x0, k.2 - y0)) with h0 | hpos
    · left
      obtain ⟨kx, ky⟩ := k
      simp only [cheb] at h0
      have : kx - x0 = 0 ∧ ky - y0 = 0 := by omega
      simp only [Prod.mk.injEq]
      omega
    · right
      refine ⟨cheb (k.1 - x0, k.2 - y0) - 1, by omega, ?_⟩
      rw [mem_ringShift (by omega)]
      omega

theorem sweepCells_nodup (opq : Cell → Bool) (x0 y0 : ℤ) (R : ℕ) :
    ((sweepVisits opq x0 y0 R).map (·.1)).Nodup := by
  rw [sweepVisits_fst_map]
  refine List.Nodup.cons ?_ ?_
  · intro hmem
    simp only [List.mem_flatMap, List.mem_range] at hmem
    obtain ⟨i, _, hk⟩ := hmem
    have := (mem_ringShift (Nat.succ_le_succ (Nat.zero_le i))).mp hk
    simp [cheb] at this
  · induction R with
    | zero => simp
    | succ R ih =>
      rw [List.range_succ, List.flatMap_append]
      refine List.Nodup.append ih ?_ ?_
      · simp only [List.flatMap_cons, List.flatMap_nil, List.append_nil]
        refine List.Nodup.map ?_ (ringCells_nodup (R + 1))
        intro a b hab
        simp only [Prod.mk.injEq] at hab
        obtain ⟨a1, a2⟩ := a
        obtain ⟨b1, b2⟩ := b
        simp only [Prod.mk.injEq]
        omega
      · intro k hk₁ hk₂
        simp only [List.mem_flatMap, List.mem_range] at hk₁
        obtain ⟨i, hi, hk₁⟩ := hk₁
        simp only [List.flatMap_cons, List.flatMap_nil,
          List.append_nil] at hk₂
        have h₁ := (mem_ringShift (Nat.succ_le_succ (Nat.zero_le i))).mp hk₁
        have h₂ :=
          (mem_ringShift (Nat.succ_le_succ (Nat.zero_le R))).mp hk₂
        omega

theorem sweepVisits_length (opq : Cell → Bool) (x0 y0 : ℤ) (R : ℕ) :
    (sweepVisits opq x0 y0 R).length = (2 * R + 1) ^ 2 := by
  have h : ∀ n, ((sweepRings opq x0 y0 n).1).length = 4 * n * (n + 1) := by
    intro n
    induction n with
    | zero => simp [sweepRings]
    | succ n ih =>
      rw [sweepRings]
      simp only [sweepRing, List.length_append, ih, List.length_map,
        ringCells_length]
      ring
  unfold sweepVisits
  simp only [List.length_cons, h]
  ring

/-!
## Lemmas about the light map accumulation
-/

theorem buildLights_fold_mem (c : Core) (z : ℤ)
    (visits : List (Cell × Bool)) (acc : List Cell) (k : Cell) :
    k ∈ visits.foldl (fun ls v =>
        if lookupGrid c.elevationGrid v.1 = none then ls
        else if visitPasses c z v then insertKey ls v.1
        else ls) acc ↔
      k ∈ acc ∨ ∃ v ∈ visits, v.1 = k ∧
        lookupGrid c.elevationGrid v.1 ≠ none ∧ visitPasses c z v = true := by
  induction visits generalizing acc with
  | nil => simp
  | cons v visits ih =>
    simp only [List.foldl_cons]
    by_cases h1 : lookupGrid c.elevationGrid v.1 = none
    · rw [if_pos h1, ih]
      simp only [List.mem_cons]
      constructor
      · rintro (h | ⟨v', hv', rest⟩)
        · exact Or.inl h
        · exact Or.inr ⟨v', Or.inr hv', rest⟩
      · rintro (h | ⟨v', hv' | hv', h2, h3, h4⟩)
        · exact Or.inl h
        · exact absurd h3 (by rw [hv']; simp [h1])
        · exact Or.inr ⟨v', hv', h2, h3, h4⟩
    · rw [if_neg h1]
      by_cases h2 : visitPasses c z v
      · rw [if_pos h2, ih]
        simp only [mem_insertKey, List.mem_cons]
        constructor
        · rintro ((h | rfl) | ⟨v', hv', rest⟩)
          · exact Or.inl h
          · exact Or.inr ⟨v, Or.inl rfl, rfl, h1, h2⟩
          · exact Or.inr ⟨v', Or.inr hv', rest⟩
        · rintro (h | ⟨v', hv' | hv', hk, h3, h4⟩)
          · exact Or.inl (Or.inl h)
          · exact Or.inl (Or.inr (hv' ▸ hk.symm))
          · exact Or.inr ⟨v', hv', hk, h3, h4⟩
      · rw [if_neg h2, ih]
        simp only [List.mem_cons]
        constructor
        · rintro (h | ⟨v', hv', rest⟩)
          · exact Or.inl h
          · exact Or.inr ⟨v', Or.inr hv', rest⟩
        · rintro (h | ⟨v', hv' | hv', hk, h3, h4⟩)
          · exact Or.inl h
          · exact absurd h4 (by rw [hv']; simp [h2])
          · exact Or.inr ⟨v', hv', hk, h3, h4⟩

theorem mem_buildLights {c : Core} {z : ℤ} {visits : List (Cell × Bool)}
    {k : Cell} :
    k ∈ buildLights c z visits ↔ ∃ v ∈ visits, v.1 = k ∧
      lookupGrid c.elevationGrid v.1 ≠ none ∧ visitPasses c z v = true := by
  unfold buildLights
  rw [buildLights_fold_mem]
  simp

theorem buildLights_fold_nodup (c : Core) (z : ℤ)
    (visits : List (Cell × Bool)) (acc : List Cell) (h : acc.Nodup) :
    (visits.foldl (fun ls v =>
        if lookupGrid c.elevationGrid v.1 = none then ls
        else if visitPasses c z v then insertKey ls v.1
        else ls) acc).Nodup := by
  induction visits generalizing acc with
  | nil => exact h
  | cons v visits ih =>
    simp only [List.foldl_cons]
    split
    · exact ih acc h
    · split
      · exact ih _ (nodup_insertKey h)
      · exact ih acc h

theorem buildLights_nodup (c : Core) (z : ℤ)
    (visits : List (Cell × Bool)) : (buildLights c z visits).Nodup :=
  buildLights_fold_nodup c z visits [] List.nodup_nil

theorem buildLights_fold_eq (c : Core) (z : ℤ)
    (visits : List (Cell × Bool)) (acc : List Cell)
    (hall : ∀ v ∈ visits, lookupGrid c.elevationGrid v.1 ≠ none ∧
      visitPasses c z v = true)
    (hnd : (visits.map (·.1)).Nodup)
    (hdisj : ∀ v ∈ visits, v.1 ∉ acc) :
    visits.foldl (fun ls v =>
        if lookupGrid c.elevationGrid v.1 = none then ls
        else if visitPasses c z v then insertKey ls v.1
        else ls) acc = acc ++ visits.map (·.1) := by
  induction visits generalizing acc with
  | nil => simp
  | cons v visits ih =>
    obtain ⟨h1, h2⟩ := hall v (List.mem_cons_self ..)
    simp only [List.foldl_cons, if_neg h1, if_pos h2]
    have hv : v.1 ∉ acc := hdisj v (List.mem_cons_self ..)
    rw [insertKey, if_neg hv]
    simp only [List.map_cons, List.nodup_cons] at hnd
    rw [ih _ (fun v' hv' => hall v' (List.mem_cons_of_mem _ hv')) hnd.2
      (fun v' hv' => by
        simp only [List.mem_append, List.mem_singleton, not_or]
        refine ⟨hdisj v' (List.mem_cons_of_mem _ hv'), ?_⟩
        intro he
        exact hnd.1 (he ▸ List.mem_map.mpr ⟨v', hv', rfl⟩))]
    simp

theorem buildLights_eq_of_all {c : Core} {z : ℤ}
    {visits : List (Cell × Bool)}
    (hall : ∀ v ∈ visits, lookupGrid c.elevationGrid v.1 ≠ none ∧
      visitPasses c z v = true)
    (hnd : (visits.map (·.1)).Nodup) :
    buildLights c z visits = visits.map (·.1) := by
  unfold buildLights
  rw [buildLights_fold_eq c z visits [] hall hnd (by simp)]
  simp

theorem lightPasses_eq_false_iff {ew fow : List Cell} {tw : TWMap}
    {k : Cell} :
    lightPasses ew fow tw k = false ↔
      k ∈ ew ∨ (∃ l, tw k = some l ∧ l ≠ []) ∨ k ∈ fow := by
  unfold lightPasses
  cases htw : tw k with
  | none =>
    simp [htw]
    tauto
  | some l =>
    cases l with
    | nil =>
      simp [htw]
      tauto
    | cons a l =>
      simp [htw]

/-!
## Lemmas about wall-map updates
-/

theorem twAppend_get (m : TWMap) (k : Cell) (t : TreeKey) (k' : Cell) :
    twAppend m k t k' =
      if k' = k then some (((m k).getD []) ++ [t]) else m k' := rfl

theorem twAddAll_get {ks : List Cell} (hnd : ks.Nodup) (m : TWMap)
    (t : TreeKey) (k' : Cell) :
    twAddAll m t ks k' =
      if k' ∈ ks then some (((m k').getD []) ++ [t]) else m k' := by
  induction ks generalizing m with
  | nil => simp [twAddAll]
  | cons k ks ih =>
    simp only [List.nodup_cons] at hnd
    show twAddAll (twAppend m k t) t ks k' = _
    rw [ih hnd.2]
    by_cases hk' : k' ∈ ks
    · have hne : k' ≠ k := fun he => hnd.1 (he ▸ hk')
      rw [if_pos hk', if_pos (List.mem_cons_of_mem _ hk'),
        twAppend_get, if_neg hne]
    · rw [if_neg hk']
      by_cases he : k' = k
      · subst he
        rw [twAppend_get, if_pos rfl, if_pos (List.mem_cons_self ..)]
      · rw [twAppend_get, if_neg he,
          if_neg (by simp [List.mem_cons, he, hk'])]

theorem count_append_singleton (l : List TreeKey) (t t' : TreeKey) :
    (l ++ [t]).count t' = l.count t' + if t' = t then 1 else 0 := by
  by_cases h : t' = t
  · subst h
    simp
  · simp [List.count_singleton, h, if_neg (Ne.symm h)]

theorem count_filter_self (l : List TreeKey) (t : TreeKey) :
    (l.filter (fun d => !(decide (d = t)))).count t = 0 := by
  simp [List.count_eq_zero, List.mem_filter]

theorem count_filter_ne {t t' : TreeKey} (l : List TreeKey) (h : t' ≠ t) :
    (l.filter (fun d => !(decide (d = t)))).count t' = l.count t' := by
  rw [List.count_filter]
  simp [h]

theorem setTreeWalls_fold_count
    (elevation : ℤ) (elevs : TreeKey → Option ℤ) (st : TreeKey → Option Bool)
    (blocks : TreeKey → Option (List Cell)) (tree : List TreeKey)
    (m : TWMap) (hnd : tree.Nodup)
    (hblocks : ∀ t ∈ tree, (blocks t).getD [] = treeCorners t)
    (k : Cell) (t' : TreeKey) :
    (((tree.foldl (fun m t =>
        if elevGuard elevs t elevation then
          if (st t).getD false then twAddAll m t ((blocks t).getD [])
          else m
        else m) m) k).getD []).count t' =
      (((m k).getD []).count t') +
        (if t' ∈ tree ∧ elevGuard elevs t' elevation = true ∧
            (st t').getD false = true ∧ k ∈ treeCorners t' then 1 else 0) := by
  induction tree generalizing m with
  | nil => simp
  | cons t tree ih =>
    simp only [List.nodup_cons] at hnd
    simp only [List.foldl_cons]
    rw [ih _ hnd.2 (fun u hu => hblocks u (List.mem_cons_of_mem _ hu))]
    have hhead : (((if elevGuard elevs t elevation then
        if (st t).getD false then twAddAll m t ((blocks t).getD [])
        else m
        else m) k).getD []).count t' =
        (((m k).getD []).count t') +
          (if t' = t ∧ elevGuard elevs t elevation = true ∧
              (st t).getD false = true ∧ k ∈ treeCorners t then 1 else 0) := by
      by_cases hg : elevGuard elevs t elevation = true
      · by_cases hs : (st t).getD false = true
        · rw [if_pos hg, if_pos hs, hblocks t (List.mem_cons_self ..),
            twAddAll_get (treeCorners_nodup t)]
          by_cases hk : k ∈ treeCorners t
          · rw [if_pos hk]
            simp only [Option.getD_some]
            rw [count_append_singleton]
            by_cases ht : t' = t
            · rw [if_pos ht, if_pos ⟨ht, hg, hs, hk⟩]
            · rw [if_neg ht, if_neg (by tauto)]
          · rw [if_neg hk, if_neg (by tauto)]
            omega
        · rw [if_pos hg, if_neg hs, if_neg (by tauto)]
          omega
      · rw [if_neg hg, if_neg (by tauto)]
        omega
    rw [hhead]
    by_cases ht : t' = t
    · subst ht
      have htl : t' ∉ tree := hnd.1
      by_cases hrest : elevGuard elevs t' elevation = true ∧
          (st t').getD false = true ∧ k ∈ treeCorners t'
      · rw [if_pos ⟨rfl, hrest.1, hrest.2.1, hrest.2.2⟩,
          if_neg (by tauto), if_pos (by
            exact ⟨List.mem_cons_self .., hrest.1, hrest.2.1, hrest.2.2⟩)]
      · rw [if_neg (by tauto), if_neg (by tauto), if_neg (by
          simp only [List.mem_cons]
          tauto)]
    · have hmem : t' ∈ t :: tree ↔ t' ∈ tree := by
        simp [List.mem_cons, ht]
      rw [if_neg (by tauto)]
      by_cases hc : t' ∈ tree ∧ elevGuard elevs t' elevation = true ∧
          (st t').getD false = true ∧ k ∈ treeCorners t'
      · rw [if_pos hc, if_pos ⟨hmem.mpr hc.1, hc.2⟩]
      · rw [if_neg hc, if_neg (by rw [hmem]; exact hc)]

theorem setTreeWalls_count
    (elevation : ℤ) (elevs : TreeKey → Option ℤ) (st : TreeKey → Option Bool)
    (blocks : TreeKey → Option (List Cell)) (tree : List TreeKey)
    (hnd : tree.Nodup)
    (hblocks : ∀ t ∈ tree, (blocks t).getD [] = treeCorners t)
    (k : Cell) (t' : TreeKey) :
    ((setTreeWalls elevation tree elevs st blocks k).getD []).count t' =
      if t' ∈ tree ∧ elevGuard elevs t' elevation = true ∧
          (st t').getD false = true ∧ k ∈ treeCorners t' then 1 else 0 := by
  unfold setTreeWalls
  rw [setTreeWalls_fold_count elevation elevs st blocks tree _ hnd hblocks]
  simp

theorem buildRelations_fold (ms : List TreeKey)
    (rel : Cell → Option (List TreeKey)) (k : Cell) :
    ((ms.foldl (fun rel t => twAddAll rel t (treeCorners t)) rel) k).getD []
      = (rel k).getD [] ++
        (ms.filter (fun t => decide (k ∈ treeCorners t))) := by
  induction ms generalizing rel with
  | nil => simp
  | cons t ms ih =>
    simp only [List.foldl_cons]
    rw [ih]
    by_cases hk : k ∈ treeCorners t
    · rw [twAddAll_get (treeCorners_nodup t), if_pos hk]
      simp [hk]
    · rw [twAddAll_get (treeCorners_nodup t), if_neg hk]
      simp [hk]

theorem buildRelations_getD (ms : List TreeKey) (k : Cell) :
    ((buildRelations ms) k).getD [] =
      ms.filter (fun t => decide (k ∈ treeCorners t)) := by
  unfold buildRelations
  rw [buildRelations_fold]
  simp

/-!
## Well-formedness of the initialized state
-/

theorem elevationScan_map_fst (img : Img) (w h : ℕ) :
    (elevationScan img w h).map (·.1) =
      (bandScan w h).map (ImageXYtoGridXY h) := by
  unfold elevationScan
  rw [List.map_map]
  rfl

theorem treeRegistry_map_fst (img : Img) (w h : ℕ) :
    (treeRegistry img w h).map (·.1) =
      ((bandScan w h).filter (isTreeMarker img w)).map (ImageXYtoGridXY h) := by
  unfold treeRegistry
  rw [List.map_map]
  rfl

theorem initCore_wf (img : Img) (w h radius : ℕ) :
    WF (initCore img w h radius) := by
  have hgridfst := elevationScan_map_fst img w h
  have htreefst := treeRegistry_map_fst img w h
  have htreend : (initTree img w h).Nodup := by
    unfold initTree
    rw [htreefst]
    exact List.Nodup.map (fun p q => ImageXYtoGridXY_inj)
      ((bandScan_nodup w h).filter _)
  refine ⟨?_, ?_, ?_, ?_, ?_, ?_, ?_, ?_, ?_, ?_, ?_, ?_, ?_⟩
  · show ((elevationScan img w h).map (·.1)).Nodup
    rw [hgridfst]
    exact List.Nodup.map (fun p q => ImageXYtoGridXY_inj) (bandScan_nodup w h)
  · intro k
    show (lookupGrid (elevationScan img w h) k).isSome ↔
      0 ≤ k.1 ∧ k.1 < ((w : ℕ) : ℤ) ∧ 0 ≤ k.2 ∧ k.2 < ((h : ℕ) : ℤ)
    rw [lookupGrid_isSome, hgridfst, mem_bandScan_map]
  · exact collectValues_nodup _
  · intro k z hkz
    show z ∈ initValues img w h
    rw [initValues, mem_collectValues]
    have := mem_of_lookupGrid_eq_some hkz
    unfold elevationScan at this
    rcases List.mem_map.mp this with ⟨p, hp, hpz⟩
    simp only [Prod.mk.injEq] at hpz
    exact List.mem_map.mpr ⟨p, hp, hpz.2⟩
  · exact htreend
  · intro t
    show (lookupGrid (treeRegistry img w h) t).isSome ↔ t ∈ initTree img w h
    rw [lookupGrid_isSome]
    rfl
  · intro t
    show (if t ∈ initTree img w h then some true else none).isSome ↔
      t ∈ initTree img w h
    split <;> simp_all
  · intro t
    rfl
  · intro k t
    show t ∈ ((buildRelations (initTree img w h)) k).getD [] ↔
      t ∈ initTree img w h ∧ k ∈ treeCorners t
    rw [buildRelations_getD, List.mem_filter]
    simp
  · intro k
    show (((buildRelations (initTree img w h)) k).getD []).Nodup
    rw [buildRelations_getD]
    exact htreend.filter _
  · intro L
    show (initTreeWalls img w h L).isSome ↔ L ∈ initValues img w h
    unfold initTreeWalls
    split <;> simp_all
  · intro L hL t ht hg k hk
    have hL' : L ∈ initValues img w h := hL
    have ht' : t ∈ initTree img w h := ht
    have hg' : elevGuard (initTreeElevations img w h) t L = true := hg
    have hstate : ((initTreeState img w h) t).getD false = true := by
      rw [initTreeState, if_pos ht']
      rfl
    have hblocks : ∀ u ∈ initTree img w h,
        ((initTreeBlocks img w h) u).getD [] = treeCorners u := by
      intro u hu
      rw [initTreeBlocks, if_pos hu]
      rfl
    have hcount : ((setTreeWalls L (initTree img w h)
        (initTreeElevations img w h) (initTreeState img w h)
        (initTreeBlocks img w h) k).getD []).count t = 1 := by
      rw [setTreeWalls_count _ _ _ _ _ htreend hblocks,
        if_pos ⟨ht', hg', hstate, hk⟩]
    show (((initTreeWalls img w h L).getD (fun _ => none)) k).isSome
    rw [initTreeWalls]
    rw [if_pos hL']
    simp only [Option.getD_some]
    cases hsw : setTreeWalls L (initTree img w h)
        (initTreeElevations img w h) (initTreeState img w h)
        (initTreeBlocks img w h) k with
    | none =>
      rw [hsw] at hcount
      simp at hcount
    | some l => simp
  · intro L hL k t
    have hL' : L ∈ initValues img w h := hL
    have hblocks : ∀ u ∈ initTree img w h,
        ((initTreeBlocks img w h) u).getD [] = treeCorners u := by
      intro u hu
      rw [initTreeBlocks, if_pos hu]
      rfl
    show ((((initTreeWalls img w h L).getD (fun _ => none)) k).getD
      []).count t = _
    rw [initTreeWalls, if_pos hL']
    simp only [Option.getD_some]
    rw [setTreeWalls_count _ _ _ _ _ htreend hblocks]
    rfl

/-!
## Lemmas about the toggle patch
-/

theorem foldlM_patchCorner {blocks : List Cell} (hnd : blocks.Nodup)
    {m : TWMap} (t : TreeKey) (hdef : ∀ k ∈ blocks, (m k).isSome) :
    blocks.foldlM (fun m k => patchCorner m t k) m = some (fun k' =>
      if k' ∈ blocks then
        some (((m k').getD []).filter (fun d => !(decide (d = t))))
      else m k') := by
  induction blocks generalizing m with
  | nil => rfl
  | cons k blocks ih =>
    simp only [List.nodup_cons] at hnd
    rcases Option.isSome_iff_exists.mp (hdef k (List.mem_cons_self ..)) with
      ⟨l, hl⟩
    have hpc : patchCorner m t k = some (fun k' =>
        if k' = k then some (l.filter (fun d => !(decide (d = t))))
        else m k') := by
      unfold patchCorner
      rw [hl]
    rw [List.foldlM_cons, hpc]
    simp only [Option.pure_def, Option.bind_eq_bind, Option.some_bind]
    rw [ih hnd.2 (fun k' hk' => by
      by_cases he : k' = k
      · rw [if_pos he]
        simp
      · rw [if_neg he]
        exact hdef k' (List.mem_cons_of_mem _ hk'))]
    congr 1
    funext k'
    by_cases hb : k' ∈ blocks
    · have hne : k' ≠ k := fun he => hnd.1 (he ▸ hb)
      rw [if_pos hb, if_pos (List.mem_cons_of_mem _ hb), if_neg hne]
    · by_cases he : k' = k
      · subst he
        rw [if_neg hb, if_pos (List.mem_cons_self ..), if_pos rfl, hl]
        rfl
      · rw [if_neg hb, if_neg he,
          if_neg (by simp [List.mem_cons, he, hb])]

theorem togglePatchLevel_spec {blocks : List Cell} (hnd : blocks.Nodup)
    {m : TWMap} (t : TreeKey) (st : Bool)
    (hdef : ∀ k ∈ blocks, (m k).isSome) :
    togglePatchLevel blocks t st m = some (fun k' =>
      if k' ∈ blocks then
        some ((((m k').getD []).filter (fun d => !(decide (d = t)))) ++
          (if st then [t] else []))
      else m k') := by
  unfold togglePatchLevel
  rw [foldlM_patchCorner hnd t hdef]
  simp only [Option.pure_def, Option.bind_eq_bind, Option.some_bind]
  show some _ = some _
  congr 1
  by_cases hst : st
  · rw [if_pos hst]
    funext k'
    rw [twAddAll_get hnd]
    by_cases hb : k' ∈ blocks
    · rw [if_pos hb, if_pos hb, if_pos hb]
      simp [hst]
    · rw [if_neg hb, if_neg hb, if_neg hb]
  · rw [if_neg hst]
    funext k'
    by_cases hb : k' ∈ blocks
    · rw [if_pos hb, if_pos hb]
      simp [hst]
    · rw [if_neg hb, if_neg hb]

theorem togglePatchLevel_patchedMap {blocks : List Cell}
    (hb : blocks = treeCorners t) {m : TWMap} (st : Bool)
    (hdef : ∀ k ∈ treeCorners t, (m k).isSome) :
    togglePatchLevel blocks t st m = some (patchedMap m t st) := by
  subst hb
  rw [togglePatchLevel_spec (treeCorners_nodup t) t st hdef]
  rfl

theorem toggleStep_of_guard {t : TreeKey} {st : Bool} {cc : Core} {L : ℤ}
    (hg : elevGuard cc.tree_elevations t L = true)
    (hblocks : cc.tree_blocks t = some (treeCorners t))
    {m : TWMap} (hm : cc.treeWalls L = some m)
    (hmdef : ∀ k ∈ treeCorners t, (m k).isSome) :
    toggleStep t st cc L = some { cc with treeWalls := fun L' =>
      (if L' = L then some (patchedMap m t st) else cc.treeWalls L') } := by
  unfold toggleStep
  rw [if_pos hg, hblocks, hm]
  simp only [Option.pure_def, Option.bind_eq_bind, Option.some_bind,
    togglePatchLevel_patchedMap rfl st hmdef]

theorem toggleStep_of_not_guard {t : TreeKey} {st : Bool} {cc : Core}
    {L : ℤ} (hg : ¬(elevGuard cc.tree_elevations t L = true)) :
    toggleStep t st cc L = some cc := by
  unfold toggleStep
  rw [if_neg hg]
  rfl

theorem toggle_fold_spec (t : TreeKey) (st : Bool) {vals : List ℤ}
    (hnd : vals.Nodup) (cc : Core)
    (hblocks : cc.tree_blocks t = some (treeCorners t))
    (hdef : ∀ L ∈ vals, elevGuard cc.tree_elevations t L = true →
      ∃ m, cc.treeWalls L = some m ∧ ∀ k ∈ treeCorners t, (m k).isSome) :
    vals.foldlM (toggleStep t st) cc =
      some { cc with treeWalls := patchedTW vals cc t st } := by
  induction vals generalizing cc with
  | nil => rfl
  | cons L vals ih =>
    simp only [List.nodup_cons] at hnd
    rw [List.foldlM_cons]
    by_cases hg : elevGuard cc.tree_elevations t L = true
    · rcases hdef L (List.mem_cons_self ..) hg with ⟨m, hm, hmdef⟩
      rw [toggleStep_of_guard hg hblocks hm hmdef]
      simp only [Option.bind_eq_bind, Option.some_bind]
      rw [ih hnd.2 { cc with treeWalls := fun L' =>
          (if L' = L then some (patchedMap m t st) else cc.treeWalls L') }
        hblocks (fun L' hL' hg' => by
          have hne : L' ≠ L := fun he => hnd.1 (he ▸ hL')
          refine Exists.imp (fun m' hm' => ⟨?_, hm'.2⟩)
            (hdef L' (List.mem_cons_of_mem _ hL') hg')
          show (if L' = L then _ else cc.treeWalls L') = some m'
          rw [if_neg hne]
          exact hm'.1)]
      congr 1
      apply Core.ext <;> try rfl
      show patchedTW vals _ t st = patchedTW (L :: vals) cc t st
      funext L'
      unfold patchedTW
      dsimp only
      by_cases he : L' = L
      · subst he
        rw [if_neg (fun h => hnd.1 h.1), if_pos (show L' = L' from rfl),
          if_pos ⟨List.mem_cons_self .., hg⟩, hm]
        rfl
      · rw [if_neg he]
        have hmem : L' ∈ L :: vals ↔ L' ∈ vals := by
          simp [List.mem_cons, he]
        by_cases hc : L' ∈ vals ∧ elevGuard cc.tree_elevations t L' = true
        · rw [if_pos hc, if_pos ⟨hmem.mpr hc.1, hc.2⟩]
        · rw [if_neg hc, if_neg (fun h => hc ⟨hmem.mp h.1, h.2⟩)]
    · rw [toggleStep_of_not_guard hg]
      simp only [Option.bind_eq_bind, Option.some_bind]
      rw [ih hnd.2 cc hblocks
        (fun L' hL' hg' => hdef L' (List.mem_cons_of_mem _ hL') hg')]
      congr 1
      apply Core.ext <;> try rfl
      show patchedTW vals cc t st = patchedTW (L :: vals) cc t st
      funext L'
      unfold patchedTW
      by_cases he : L' = L
      · subst he
        rw [if_neg (fun hc => hnd.1 hc.1), if_neg (fun hc => hg hc.2)]
      · have hmem : L' ∈ L :: vals ↔ L' ∈ vals := by
          simp [List.mem_cons, he]
        by_cases hc : L' ∈ vals ∧ elevGuard cc.tree_elevations t L' = true
        · rw [if_pos hc, if_pos ⟨hmem.mpr hc.1, hc.2⟩]
        · rw [if_neg hc, if_neg (fun h => hc ⟨hmem.mp h.1, h.2⟩)]

theorem toggleOneTree_spec (c : Core) (hwf : WF c) {t : TreeKey}
    (ht : t ∈ c.tree) :
    toggleOneTree c t = some { c with
      tree_state := flipState c t,
      treeWalls := patchedTW c.elevationValues c t
        (!((c.tree_state t).getD false)) } := by
  have hblocks : c.tree_blocks t = some (treeCorners t) := by
    rw [hwf.treeBlocksEq t, if_pos ht]
  have hdef : ∀ L ∈ c.elevationValues,
      elevGuard c.tree_elevations t L = true →
      ∃ m, c.treeWalls L = some m ∧
        ∀ k ∈ treeCorners t, (m k).isSome := by
    intro L hL hg
    rcases Option.isSome_iff_exists.mp ((hwf.wallsDom L).mpr hL) with ⟨m, hm⟩
    refine ⟨m, hm, fun k hk => ?_⟩
    have := hwf.wallsDefined L hL t ht hg k hk
    rwa [hm] at this
  unfold toggleOneTree
  dsimp only
  rw [toggle_fold_spec t (!((c.tree_state t).getD false)) hwf.valuesNodup
    { c with tree_state := fun t' =>
        if t' = t then some (!((c.tree_state t).getD false))
        else c.tree_state t' }
    hblocks hdef]
  congr 1

theorem count_append_cases (l₁ l₂ : List TreeKey) (t : TreeKey) :
    (l₁ ++ l₂).count t = l₁.count t + l₂.count t := List.count_append ..

theorem patched_wf (c : Core) (hwf : WF c) {t : TreeKey} (ht : t ∈ c.tree)
    (st : Bool) (hstq : st = !((c.tree_state t).getD false)) :
    WF { c with
      tree_state := flipState c t,
      treeWalls := patchedTW c.elevationValues c t st } := by
  have hflip_ne : ∀ u, u ≠ t →
      flipState c t u = c.tree_state u := by
    intro u hu
    unfold flipState
    rw [if_neg hu]
  have hflip_t : flipState c t t = some (!((c.tree_state t).getD false)) := by
    unfold flipState
    rw [if_pos rfl]
  refine ⟨hwf.gridNodup, hwf.gridDom, hwf.valuesNodup, hwf.valuesComplete,
    hwf.treeNodup, hwf.treeElevDom, ?_, hwf.treeBlocksEq, hwf.relationsMem,
    hwf.relationsNodup, ?_, ?_, ?_⟩
  · intro u
    show (flipState c t u).isSome ↔ u ∈ c.tree
    by_cases hu : u = t
    · subst hu
      rw [hflip_t]
      simp [ht]
    · rw [hflip_ne u hu]
      exact hwf.treeStateDom u
  · intro L
    show (patchedTW c.elevationValues c t st L).isSome ↔ _
    unfold patchedTW
    by_cases hc : L ∈ c.elevationValues ∧
        elevGuard c.tree_elevations t L = true
    · rw [if_pos hc]
      simp [hc.1]
    · rw [if_neg hc]
      exact hwf.wallsDom L
  · intro L hL u hu hg k hk
    show (((patchedTW c.elevationValues c t st L).getD
      (fun _ => none)) k).isSome
    unfold patchedTW
    by_cases hc : L ∈ c.elevationValues ∧
        elevGuard c.tree_elevations t L = true
    · rw [if_pos hc]
      simp only [Option.getD_some]
      unfold patchedMap
      by_cases hkt : k ∈ treeCorners t
      · rw [if_pos hkt]
        simp
      · rw [if_neg hkt]
        exact hwf.wallsDefined L hL u hu hg k hk
    · rw [if_neg hc]
      exact hwf.wallsDefined L hL u hu hg k hk
  · intro L hL k u
    have hbase := hwf.wallsCount L hL k u
    unfold twGet at hbase
    show ((((patchedTW c.elevationValues c t st L).getD (fun _ => none))
      k).getD []).count u = _
    unfold patchedTW
    by_cases hc : L ∈ c.elevationValues ∧
        elevGuard c.tree_elevations t L = true
    · rw [if_pos hc]
      simp only [Option.getD_some]
      unfold patchedMap
      by_cases hkt : k ∈ treeCorners t
      · rw [if_pos hkt]
        simp only [Option.getD_some]
        rw [count_append_cases]
        by_cases hu : u = t
        · rw [hu, count_filter_self]
          have hfl : (flipState c t t).getD false =
              !((c.tree_state t).getD false) := by
            rw [hflip_t]
            rfl
          by_cases hstv : (!((c.tree_state t).getD false)) = true
          · rw [if_pos (show t ∈ c.tree ∧
                elevGuard c.tree_elevations t L = true ∧
                (flipState c t t).getD false = true ∧ k ∈ treeCorners t from
                ⟨ht, hc.2, hfl.trans hstv, hkt⟩)]
            rw [hstq]
            simp [hstv]
          · rw [if_neg (show ¬(t ∈ c.tree ∧
                elevGuard c.tree_elevations t L = true ∧
                (flipState c t t).getD false = true ∧ k ∈ treeCorners t) from
                fun h => hstv (hfl.symm.trans h.2.2.1))]
            rw [hstq]
            simp only [Bool.not_eq_true] at hstv
            rw [hstv]
            simp
        · rw [count_filter_ne _ hu]
          have happ : (if st = true then [t] else []).count u = 0 := by
            split
            · exact List.count_eq_zero.mpr (by simpa using hu)
            · simp
          rw [happ, hbase]
          simp only [hflip_ne u hu]
          omega
      · rw [if_neg hkt, hbase]
        by_cases hu : u = t
        · rw [hu]
          rw [if_neg (fun h => hkt h.2.2.2), if_neg (fun h => hkt h.2.2.2)]
        · simp only [hflip_ne u hu]
    · rw [if_neg hc, hbase]
      have hng : ¬(elevGuard c.tree_elevations t L = true) := fun h =>
        hc ⟨hL, h⟩
      by_cases hu : u = t
      · rw [hu]
        rw [if_neg (fun h => hng h.2.1), if_neg (fun h => hng h.2.1)]
      · simp only [hflip_ne u hu]

theorem RegFrame.refl (c : Core) : RegFrame c c :=
  ⟨rfl, rfl, rfl, rfl, rfl, rfl, rfl, rfl, rfl, rfl, rfl, rfl, rfl, rfl,
   rfl, rfl, rfl⟩

theorem RegFrame.comp {c c' c'' : Core} (h1 : RegFrame c c')
    (h2 : RegFrame c' c'') : RegFrame c c'' :=
  ⟨h2.grid.trans h1.grid, h2.values.trans h1.values,
   h2.gnav.trans h1.gnav, h2.fow.trans h1.fow,
   h2.noWards.trans h1.noWards, h2.tree.trans h1.tree,
   h2.elevs.trans h1.elevs, h2.blocks.trans h1.blocks,
   h2.relations.trans h1.relations, h2.ewalls.trans h1.ewalls,
   h2.lights.trans h1.lights, h2.lightArea.trans h1.lightArea,
   h2.area.trans h1.area, h2.elevation.trans h1.elevation,
   h2.radius.trans h1.radius, h2.gridWidth.trans h1.gridWidth,
   h2.gridHeight.trans h1.gridHeight⟩

theorem toggleOneTree_frame (c : Core) (t : TreeKey) (st : Bool) :
    RegFrame c { c with
      tree_state := flipState c t,
      treeWalls := patchedTW c.elevationValues c t st } :=
  ⟨rfl, rfl, rfl, rfl, rfl, rfl, rfl, rfl, rfl, rfl, rfl, rfl, rfl, rfl,
   rfl, rfl, rfl⟩

theorem toggle_trees_fold (ts : List TreeKey) (c : Core) (hwf : WF c)
    (hnd : ts.Nodup) (hts : ∀ u ∈ ts, u ∈ c.tree) :
    ∃ c', ts.foldlM (fun c t => toggleOneTree c t) c = some c' ∧ WF c' ∧
      RegFrame c c' ∧
      ∀ u, c'.tree_state u =
        if u ∈ ts then some (!((c.tree_state u).getD false))
        else c.tree_state u := by
  induction ts generalizing c with
  | nil =>
    refine ⟨c, rfl, hwf, RegFrame.refl c, fun u => ?_⟩
    rw [if_neg (List.not_mem_nil u)]
  | cons t ts ih =>
    simp only [List.nodup_cons] at hnd
    have ht : t ∈ c.tree := hts t (List.mem_cons_self ..)
    have hstep := toggleOneTree_spec c hwf ht
    have hwf1 := patched_wf c hwf ht (!((c.tree_state t).getD false)) rfl
    have hframe1 := toggleOneTree_frame c t (!((c.tree_state t).getD false))
    rw [List.foldlM_cons, hstep]
    simp only [Option.bind_eq_bind, Option.some_bind]
    rcases ih _ hwf1 hnd.2 (fun u hu => by
      rw [hframe1.tree.symm] at hts
      exact hts u (List.mem_cons_of_mem _ hu)) with
      ⟨c', hfold, hwf', hframe', hstates⟩
    refine ⟨c', hfold, hwf', RegFrame.comp hframe1 hframe', fun u => ?_⟩
    rw [hstates u]
    by_cases hu : u = t
    · subst hu
      have hnm : u ∉ ts := hnd.1
      rw [if_neg hnm, if_pos (List.mem_cons_self ..)]
      show flipState c u u = _
      unfold flipState
      rw [if_pos rfl]
    · have hflip : flipState c t u = c.tree_state u := by
        unfold flipState
        rw [if_neg hu]
      by_cases hm : u ∈ ts
      · rw [if_pos hm, if_pos (List.mem_cons_of_mem _ hm)]
        show some (!((flipState c t u).getD false)) = _
        rw [hflip]
      · rw [if_neg hm, if_neg (by
          simp only [List.mem_cons]
          tauto)]
        exact hflip

theorem toggleTree_ok (c : Core) (hwf : WF c) (x y : ℤ) :
    ∃ c' b, toggleTree c x y = some (c', b) ∧ WF c' ∧ RegFrame c c' ∧
      ∀ u, c'.tree_state u =
        if u ∈ (c.tree_relations (x, y)).getD [] then
          some (!((c.tree_state u).getD false))
        else c.tree_state u := by
  unfold toggleTree
  dsimp only
  cases hrel : c.tree_relations (x, y) with
  | none =>
    refine ⟨c, false, rfl, hwf, RegFrame.refl c, fun u => ?_⟩
    simp
  | some ts =>
    have hnd : ts.Nodup := by
      have := hwf.relationsNodup (x, y)
      rwa [hrel] at this
    have hts : ∀ u ∈ ts, u ∈ c.tree := by
      intro u hu
      have := (hwf.relationsMem (x, y) u).mp (by rw [hrel]; exact hu)
      exact this.1
    rcases toggle_trees_fold ts c hwf hnd hts with
      ⟨c', hfold, hwf', hframe', hstates⟩
    refine ⟨c', true, ?_, hwf', hframe', fun u => ?_⟩
    · simp only [hfold, Option.bind_eq_bind, Option.some_bind]
      rfl
    · rw [hstates u]
      rfl

theorem updateVisibility_fields (c : Core) (gX gY : ℤ) (r : Option ℕ) :
    ((updateVisibility c gX gY r).1).elevationGrid = c.elevationGrid ∧
    ((updateVisibility c gX gY r).1).elevationValues = c.elevationValues ∧
    ((updateVisibility c gX gY r).1).gridnav = c.gridnav ∧
    ((updateVisibility c gX gY r).1).ent_fow_blocker_node =
      c.ent_fow_blocker_node ∧
    ((updateVisibility c gX gY r).1).tools_no_wards = c.tools_no_wards ∧
    ((updateVisibility c gX gY r).1).tree = c.tree ∧
    ((updateVisibility c gX gY r).1).tree_elevations = c.tree_elevations ∧
    ((updateVisibility c gX gY r).1).tree_state = c.tree_state ∧
    ((updateVisibility c gX gY r).1).tree_blocks = c.tree_blocks ∧
    ((updateVisibility c gX gY r).1).tree_relations = c.tree_relations ∧
    ((updateVisibility c gX gY r).1).treeWalls = c.treeWalls ∧
    ((updateVisibility c gX gY r).1).radius = c.radius ∧
    ((updateVisibility c gX gY r).1).gridWidth = c.gridWidth ∧
    ((updateVisibility c gX gY r).1).gridHeight = c.gridHeight := by
  unfold updateVisibility
  dsimp only
  cases lookupGrid c.elevationGrid (gX, gY) with
  | none =>
    exact ⟨rfl, rfl, rfl, rfl, rfl, rfl, rfl, rfl, rfl, rfl, rfl, rfl,
      rfl, rfl⟩
  | some z =>
    dsimp only
    cases c.treeWalls z with
    | none =>
      dsimp only
      exact ⟨rfl, rfl, rfl, rfl, rfl, rfl, rfl, rfl, rfl, rfl, rfl, rfl,
        rfl, rfl⟩
    | some tw =>
      dsimp only
      exact ⟨rfl, rfl, rfl, rfl, rfl, rfl, rfl, rfl, rfl, rfl, rfl, rfl,
        rfl, rfl⟩

theorem wf_transport {c c' : Core} (hwf : WF c)
    (h1 : c'.elevationGrid = c.elevationGrid)
    (h2 : c'.elevationValues = c.elevationValues)
    (h3 : c'.tree = c.tree)
    (h4 : c'.tree_elevations = c.tree_elevations)
    (h5 : c'.tree_state = c.tree_state)
    (h6 : c'.tree_blocks = c.tree_blocks)
    (h7 : c'.tree_relations = c.tree_relations)
    (h8 : c'.treeWalls = c.treeWalls)
    (h9 : c'.gridWidth = c.gridWidth)
    (h10 : c'.gridHeight = c.gridHeight) : WF c' := by
  refine ⟨?_, ?_, ?_, ?_, ?_, ?_, ?_, ?_, ?_, ?_, ?_, ?_, ?_⟩
  · rw [h1]
    exact hwf.gridNodup
  · intro k
    rw [h1, h9, h10]
    exact hwf.gridDom k
  · rw [h2]
    exact hwf.valuesNodup
  · intro k z hk
    rw [h2]
    rw [h1] at hk
    exact hwf.valuesComplete k z hk
  · rw [h3]
    exact hwf.treeNodup
  · intro t
    rw [h4, h3]
    exact hwf.treeElevDom t
  · intro t
    rw [h5, h3]
    exact hwf.treeStateDom t
  · intro t
    rw [h6, h3]
    exact hwf.treeBlocksEq t
  · intro k t
    rw [h7, h3]
    exact hwf.relationsMem k t
  · intro k
    rw [h7]
    exact hwf.relationsNodup k
  · intro L
    rw [h8, h2]
    exact hwf.wallsDom L
  · intro L hL t ht hg k hk
    rw [h2] at hL
    rw [h3] at ht
    rw [h4] at hg
    rw [h8]
    exact hwf.wallsDefined L hL t ht hg k hk
  · intro L hL k t
    rw [h2] at hL
    unfold twGet
    rw [h8, h3, h4, h5]
    exact hwf.wallsCount L hL k t

theorem updateVisibility_wf (c : Core) (hwf : WF c) (gX gY : ℤ)
    (r : Option ℕ) : WF ((updateVisibility c gX gY r).1) := by
  obtain ⟨h1, h2, -, -, -, h6, h7, h8, h9, h10, h11, -, h13, h14⟩ :=
    updateVisibility_fields c gX gY r
  exact wf_transport hwf h1 h2 h6 h7 h8 h9 h10 h11 h13 h14

theorem setRadius_wf (c : Core) (hwf : WF c) (r : ℕ) :
    WF (setRadius c r) :=
  wf_transport hwf rfl rfl rfl rfl rfl rfl rfl rfl rfl rfl

theorem reachable_wf {c : Core} (h : Reachable c) : WF c := by
  induction h with
  | init img w h radius => exact initCore_wf img w h radius
  | toggle x y hr htog ih =>
    rename_i c₀ c' b
    rcases toggleTree_ok c₀ ih x y with ⟨c'', b', htog', hwf'', -, -⟩
    rw [htog] at htog'
    cases htog'
    exact hwf''
  | update gX gY radius hr ih => exact updateVisibility_wf _ ih gX gY radius
  | setR r hr ih => exact setRadius_wf _ ih r

/-!
## The shape of one successful `updateVisibility` call
-/

theorem effRadius_pos (c : Core) {R : ℕ} (hR : 0 < R) :
    effRadius c (some R) = R := by
  cases R with
  | zero => omega
  | succ n => rfl

theorem updateVisibility_some {c : Core} {gX gY : ℤ} {r : Option ℕ} {z : ℤ}
    (hz : lookupGrid c.elevationGrid (gX, gY) = some z)
    {tw : TWMap} (htw : c.treeWalls z = some tw) :
    updateVisibility c gX gY r =
      ({ c with
          elevation := some z,
          elevationWalls := fun e =>
            if e = z then some (activeEW c z) else c.elevationWalls e,
          lights := buildLights c z (queryVisits c gX gY r z),
          lightArea := (buildLights c z (queryVisits c gX gY r z)).length,
          area := (queryVisits c gX gY r z).length }, none) := by
  unfold updateVisibility
  dsimp only
  rw [hz]
  dsimp only
  rw [htw]
  dsimp only
  unfold queryVisits queryOpq
  rw [htw]
  dsimp only [Option.getD_some]

/-!
## Membership in a generated elevation wall set
-/

theorem mem_generateElevationWalls {data : List (Cell × ℤ)}
    (hnd : (data.map (·.1)).Nodup) {E : ℤ} {k : Cell} :
    k ∈ generateElevationWalls data E ↔
      ∃ z, lookupGrid data k = some z ∧ E < z ∧
        ∃ o ∈ neighborOffsets, ∃ z',
          lookupGrid data (k.1 + o.1, k.2 + o.2) = some z' ∧ z' ≤ E := by
  unfold generateElevationWalls
  rw [List.mem_map]
  constructor
  · rintro ⟨a, ha, rfl⟩
    rw [List.mem_filter] at ha
    obtain ⟨hmem, hcond⟩ := ha
    rw [Bool.and_eq_true] at hcond
    obtain ⟨hgt, hany⟩ := hcond
    rw [List.any_eq_true] at hany
    obtain ⟨o, ho, hpass⟩ := hany
    refine ⟨a.2, lookupGrid_eq_some_of_mem hnd hmem, by simpa using hgt,
      o, ho, ?_⟩
    cases hlk : lookupGrid data (a.1.1 + o.1, a.1.2 + o.2) with
    | none => rw [hlk] at hpass; cases hpass
    | some z' =>
      rw [hlk] at hpass
      exact ⟨z', rfl, by simpa using hpass⟩
  · rintro ⟨z, hz, hE, o, ho, z', hz', hle⟩
    refine ⟨(k, z), ?_, rfl⟩
    rw [List.mem_filter]
    refine ⟨mem_of_lookupGrid_eq_some hz, ?_⟩
    rw [Bool.and_eq_true]
    refine ⟨by simpa using hE, ?_⟩
    rw [List.any_eq_true]
    refine ⟨o, ho, ?_⟩
    dsimp only
    rw [hz']
    simpa using hle

/-!
## Flat-map instances
-/

theorem elevationScan_flat_value {img : Img} {w h : ℕ} {e : ℤ}
    (hflat : ∀ p ∈ bandScan w h, (bandPx img w 0 p).1 = e)
    {k : Cell} {z : ℤ}
    (hz : lookupGrid (elevationScan img w h) k = some z) : z = e := by
  have hmem := mem_of_lookupGrid_eq_some hz
  unfold elevationScan at hmem
  rw [List.mem_map] at hmem
  obtain ⟨p, hp, heq⟩ := hmem
  injection heq with h1 h2
  rw [← h2]
  exact hflat p hp

theorem generateElevationWalls_flat {img : Img} {w h : ℕ} {e : ℤ}
    (hflat : ∀ p ∈ bandScan w h, (bandPx img w 0 p).1 = e) :
    generateElevationWalls (elevationScan img w h) e = [] := by
  unfold generateElevationWalls
  rw [List.filter_eq_nil_iff.mpr ?_]
  · rfl
  · intro a ha
    unfold elevationScan at ha
    rw [List.mem_map] at ha
    obtain ⟨p, hp, heq⟩ := ha
    have h2 : a.2 = e := by
      rw [← heq]
      exact hflat p hp
    simp [h2]

theorem initValues_flat_mem {img : Img} {w h : ℕ} {e : ℤ}
    (hflat : ∀ p ∈ bandScan w h, (bandPx img w 0 p).1 = e)
    (hw : 0 < w) (hh : 0 < h) : e ∈ initValues img w h := by
  unfold initValues
  rw [mem_collectValues, List.mem_map]
  exact ⟨(0, 0), mem_bandScan.mpr ⟨hw, hh⟩,
    hflat (0, 0) (mem_bandScan.mpr ⟨hw, hh⟩)⟩

theorem openField (img : Img) (w h rad : ℕ) (e : ℤ)
    (hflat : ∀ p ∈ bandScan w h, (bandPx img w 0 p).1 = e)
    (hnotree : initTree img w h = [])
    (hnofow : blackScan img w h 3 = [])
    (R : ℕ) (hR : 0 < R) (x y : ℤ)
    (hx : (R : ℤ) ≤ x) (hxw : x + R < (w : ℤ))
    (hy : (R : ℤ) ≤ y) (hyh : y + R < (h : ℤ)) :
    (updateVisibility (initCore img w h rad) x y (some R)).2 = none ∧
    (∀ k : Cell, cheb (k.1 - x, k.2 - y) ≤ R →
      k ∈ ((updateVisibility (initCore img w h rad) x y (some R)).1).lights) ∧
    ((updateVisibility (initCore img w h rad) x y (some R)).1).lightArea =
      min (2 * R + 1) w * min (2 * R + 1) h := by
  have hwf := initCore_wf img w h rad
  have hbounds : 0 ≤ x ∧ x < (w : ℤ) ∧ 0 ≤ y ∧ y < (h : ℤ) := by omega
  obtain ⟨z, hz⟩ := Option.isSome_iff_exists.mp
    ((hwf.gridDom (x, y)).mpr hbounds)
  have hze : z = e := elevationScan_flat_value hflat hz
  rw [hze] at hz
  have hmemE : e ∈ initValues img w h :=
    initValues_flat_mem hflat (by omega) (by omega)
  have hfow : (initCore img w h rad).ent_fow_blocker_node = [] := hnofow
  have hrel : (initCore img w h rad).tree_relations = fun _ => none := by
    show buildRelations (initTree img w h) = fun _ => none
    rw [hnotree]
    rfl
  have htwval : (initCore img w h rad).treeWalls e =
      some (fun _ => none) := by
    show initTreeWalls img w h e = some (fun _ => none)
    unfold initTreeWalls
    rw [if_pos hmemE, hnotree]
    rfl
  have hopq : ∀ k, queryOpq (initCore img w h rad) e k = false := by
    intro k
    unfold queryOpq
    rw [htwval]
    have hew : activeEW (initCore img w h rad) e =
        generateElevationWalls (elevationScan img w h) e := rfl
    rw [hew, generateElevationWalls_flat hflat, hfow]
    simp [lightPasses]
  have hqv : queryVisits (initCore img w h rad) x y (some R) e =
      sweepVisits (queryOpq (initCore img w h rad) e) x y R := by
    unfold queryVisits
    rw [effRadius_pos _ hR]
  have hflag : ∀ v ∈ sweepVisits (queryOpq (initCore img w h rad) e) x y R,
      v.2 = true := by
    intro v hv
    rw [sweepVisits_transparent hopq] at hv
    rcases List.mem_cons.mp hv with rfl | hv'
    · rfl
    · rw [List.mem_flatMap] at hv'
      obtain ⟨i, hi, hv''⟩ := hv'
      rw [List.mem_map] at hv''
      obtain ⟨d, hd, rfl⟩ := hv''
      rfl
  have hall : ∀ v ∈ sweepVisits (queryOpq (initCore img w h rad) e) x y R,
      lookupGrid (initCore img w h rad).elevationGrid v.1 ≠ none ∧
      visitPasses (initCore img w h rad) e v = true := by
    intro v hv
    have hcb : cheb (v.1.1 - x, v.1.2 - y) ≤ R :=
      (sweepCells_mem x y R).mp (List.mem_map_of_mem _ hv)
    have hvb : 0 ≤ v.1.1 ∧ v.1.1 < (w : ℤ) ∧ 0 ≤ v.1.2 ∧
        v.1.2 < (h : ℤ) := by
      unfold cheb at hcb
      omega
    refine ⟨Option.isSome_iff_ne_none.mp ((hwf.gridDom v.1).mpr hvb), ?_⟩
    have hv2 := hflag v hv
    unfold visitPasses treeBlocking
    rw [hv2, hfow, hrel]
    simp
  have hlights :
      buildLights (initCore img w h rad) e
        (sweepVisits (queryOpq (initCore img w h rad) e) x y R) =
      (sweepVisits (queryOpq (initCore img w h rad) e) x y R).map (·.1) :=
    buildLights_eq_of_all hall (sweepCells_nodup _ x y R)
  rw [updateVisibility_some hz htwval]
  refine ⟨rfl, ?_, ?_⟩
  · intro k hk
    show k ∈ buildLights (initCore img w h rad) e
      (queryVisits (initCore img w h rad) x y (some R) e)
    rw [hqv, hlights, sweepCells_mem]
    exact hk
  · show (buildLights (initCore img w h rad) e
      (queryVisits (initCore img w h rad) x y (some R) e)).length =
      min (2 * R + 1) w * min (2 * R + 1) h
    rw [hqv, hlights, List.length_map, sweepVisits_length]
    have h1 : 2 * R + 1 ≤ w := by omega
    have h2 : 2 * R + 1 ≤ h := by omega
    rw [min_eq_left h1, min_eq_left h2]
    ring

/-!
## The `key2pt` cache never loses a key
-/

theorem primeStep_keys (cache : Key2ptCache) (k : Cell) :
    ((if (cache.map (·.1)).contains k then
        cache.map (fun e => if e.1 = k then (k, k) else e)
      else cache ++ [(k, k)]).map (·.1)) =
      if (cache.map (·.1)).contains k then cache.map (·.1)
      else cache.map (·.1) ++ [k] := by
  by_cases hmem : ((cache.map (·.1)).contains k) = true
  · rw [if_pos hmem, if_pos hmem, List.map_map]
    apply List.map_congr_left
    intro e he
    show (if e.1 = k then ((k, k) : Cell × Cell) else e).1 = e.1
    by_cases he1 : e.1 = k
    · rw [if_pos he1]
      exact he1.symm
    · rw [if_neg he1]
  · rw [if_neg hmem, if_neg hmem, List.map_append]
    rfl

theorem primeFold_mem_keys (l : List Cell) (cache : Key2ptCache)
    (k0 : Cell) (hk : k0 ∈ cache.map (·.1)) :
    k0 ∈ (l.foldl (fun cache k =>
      if (cache.map (·.1)).contains k then
        cache.map (fun e => if e.1 = k then (k, k) else e)
      else cache ++ [(k, k)]) cache).map (·.1) := by
  induction l generalizing cache with
  | nil => exact hk
  | cons a l ih =>
    rw [List.foldl_cons]
    apply ih
    rw [primeStep_keys]
    by_cases hmem : ((cache.map (·.1)).contains a) = true
    · rw [if_pos hmem]
      exact hk
    · rw [if_neg hmem]
      exact List.mem_append_left _ hk

theorem primeFold_untouched (l : List Cell) (cache : Key2ptCache)
    (p : Cell × Cell) (hp : p ∈ cache) (hout : p.1 ∉ l) :
    p ∈ l.foldl (fun cache k =>
      if (cache.map (·.1)).contains k then
        cache.map (fun e => if e.1 = k then (k, k) else e)
      else cache ++ [(k, k)]) cache := by
  induction l generalizing cache with
  | nil => exact hp
  | cons a l ih =>
    rw [List.foldl_cons]
    have hne : p.1 ≠ a := fun hc => hout (hc ▸ List.mem_cons_self ..)
    have hout' : p.1 ∉ l := fun hc => hout (List.mem_cons_of_mem _ hc)
    apply ih _ ?_ hout'
    by_cases hmem : ((cache.map (·.1)).contains a) = true
    · rw [if_pos hmem]
      refine List.mem_map.mpr ⟨p, hp, ?_⟩
      show (if p.1 = a then ((a, a) : Cell × Cell) else p) = p
      rw [if_neg hne]
    · rw [if_neg hmem]
      exact List.mem_append_left _ hp

theorem initTree_flatImg (w h : ℕ) : initTree flatImg w h = [] := by
  have hf : (bandScan w h).filter (isTreeMarker flatImg w) = [] :=
    List.filter_eq_nil_iff.mpr (fun p _ => by
      simp [isTreeMarker, bandPx, flatImg])
  unfold initTree treeRegistry
  rw [hf]
  rfl

theorem blackScan_flatImg (w h b : ℕ) : blackScan flatImg w h b = [] := by
  have hf : (bandScan w h).filter
      (fun p => decide ((bandPx flatImg w b p).1 = 0)) = [] :=
    List.filter_eq_nil_iff.mpr (fun p _ => by
      simp [bandPx, flatImg])
  unfold blackScan
  rw [hf]
  rfl

/-!
## The claims
-/

/-- Claim C1: tree-wall cache consistency.  After initialization and after
any sequence of (non-throwing) queries and mutations, for every known
elevation level `L` and every corner-cell key `k`, the entry
`treeWalls[L][k]` holds exactly one wall descriptor for each tree that is
currently standing, whose blocking elevation strictly exceeds `L` and one
of whose 4 footprint corners is `k` — and no other descriptors. -/
theorem C1_tree_wall_invariant (c : Core) (h : Reachable c)
    (L : ℤ) (hL : L ∈ c.elevationValues) (k : Cell) (t : TreeKey) :
    (twGet c L k).count t =
      if t ∈ c.tree ∧ elevGuard c.tree_elevations t L = true ∧
          (c.tree_state t).getD false = true ∧ k ∈ treeCorners t
      then 1 else 0 :=
  (reachable_wf h).wallsCount L hL k t

theorem C1_tree_wall_invariant_witness :
    7 ∈ treeCore.elevationValues ∧
    (twGet treeCore 7 (2, 2)).count (2, 2) = 1 := by
  refine ⟨by decide, ?_⟩
  rw [C1_tree_wall_invariant treeCore (Reachable.init treeImg 5 5 2) 7
    (by decide) (2, 2) (2, 2)]
  simp only [treeCorners_eq]
  decide

/-- Claim C2 counterexample: on a freshly constructed (never initialized)
instance, `updateVisibility` and `toggleTree` do not fail fast with any
NotReady condition — they throw a `TypeError` (the embedding's
`JsError.typeError`) precisely by dereferencing the still-undefined
`elevationGrid` / `tree_relations` fields, i.e. they do read the null
state the specification says they must not; only `isValidXY` has a
readiness guard (returning `false`). -/
theorem C2_not_ready_counterexample :
    (vsUpdateVisibility notReadyVS 0 0 none).2 = some JsError.typeError ∧
    (vsToggleTree notReadyVS 0 0).2.1 = some JsError.typeError ∧
    vsIsValidXY notReadyVS 0 0 true true true = false :=
  ⟨rfl, rfl, rfl⟩

/-- Claim C2, amended: before initialization only `isValidXY` fails fast
(explicit readiness check, returning `false`); `updateVisibility` and
`toggleTree` have no readiness check and throw a `TypeError` from
dereferencing the missing state, leaving the instance unchanged. -/
theorem C2_not_ready_amended (v : VS) (hr : v.ready = false)
    (hc : v.core = none) (x y gX gY : ℤ) (r : Option ℕ)
    (b1 b2 b3 : Bool) :
    vsIsValidXY v x y b1 b2 b3 = false ∧
    vsUpdateVisibility v gX gY r = (v, some JsError.typeError) ∧
    vsToggleTree v x y = (v, some JsError.typeError, false) := by
  refine ⟨?_, ?_, ?_⟩
  · unfold vsIsValidXY
    rw [hr]
    rfl
  · unfold vsUpdateVisibility
    rw [hc]
  · unfold vsToggleTree
    rw [hc]

theorem C2_not_ready_amended_witness :
    notReadyVS.ready = false ∧ notReadyVS.core = none ∧
    vsUpdateVisibility notReadyVS 0 0 none =
      (notReadyVS, some JsError.typeError) :=
  ⟨rfl, rfl,
    (C2_not_ready_amended notReadyVS rfl rfl 0 0 0 0 none true true
      true).2.1⟩

/-- Claim C3: light-map post-filter and counters.  For a reachable state
and a query whose origin cell has elevation entry `z`: the call returns
without error; a cell the sweep visited as geometrically visible is in
`lights` iff it has an elevation entry, is not a FoW-blocker cell, and no
standing tree of elevation exceeding `z` is registered at that key;
`lightArea` counts `lights`; `area` counts all visited cells pre-filter;
`elevation` becomes the origin's elevation; and every key of the new
`lights` comes from this query's visit sequence — the previous contents
are replaced, never merged. -/
theorem C3_light_post_filter (c : Core) (h : Reachable c) (gX gY : ℤ)
    (r : Option ℕ) (z : ℤ)
    (hz : lookupGrid c.elevationGrid (gX, gY) = some z) :
    (updateVisibility c gX gY r).2 = none ∧
    ((updateVisibility c gX gY r).1).elevation = some z ∧
    ((updateVisibility c gX gY r).1).area =
      (queryVisits c gX gY r z).length ∧
    ((updateVisibility c gX gY r).1).lightArea =
      ((updateVisibility c gX gY r).1).lights.length ∧
    (∀ v ∈ queryVisits c gX gY r z, v.2 = true →
      (v.1 ∈ ((updateVisibility c gX gY r).1).lights ↔
        (lookupGrid c.elevationGrid v.1).isSome ∧
          v.1 ∉ c.ent_fow_blocker_node ∧
          treeBlocking c z v.1 = false)) ∧
    (∀ k ∈ ((updateVisibility c gX gY r).1).lights,
      ∃ v ∈ queryVisits c gX gY r z, v.1 = k ∧ v.2 = true) := by
  have hwf := reachable_wf h
  obtain ⟨tw, htw⟩ := Option.isSome_iff_exists.mp
    ((hwf.wallsDom z).mpr (hwf.valuesComplete _ _ hz))
  rw [updateVisibility_some hz htw]
  refine ⟨rfl, rfl, rfl, rfl, ?_, ?_⟩
  · intro v hv hv2
    show v.1 ∈ buildLights c z (queryVisits c gX gY r z) ↔ _
    rw [mem_buildLights]
    constructor
    · rintro ⟨v', hv', hveq, hlk, hpass⟩
      have hnd : ((queryVisits c gX gY r z).map (·.1)).Nodup := by
        show ((sweepVisits (queryOpq c z) gX gY
          (effRadius c r)).map (·.1)).Nodup
        exact sweepCells_nodup _ _ _ _
      have hvv : v' = v := List.inj_on_of_nodup_map hnd hv' hv hveq
      subst hvv
      unfold visitPasses at hpass
      rw [hv2] at hpass
      simp only [Bool.true_and, Bool.and_eq_true, Bool.not_eq_true',
        decide_eq_false_iff_not] at hpass
      exact ⟨Option.ne_none_iff_isSome.mp hlk, hpass.1, hpass.2⟩
    · rintro ⟨hsome, hfow, hblock⟩
      refine ⟨v, hv, rfl, Option.ne_none_iff_isSome.mpr hsome, ?_⟩
      unfold visitPasses
      rw [hv2, hblock]
      simp [hfow]
  · intro k hk
    have hk' : k ∈ buildLights c z (queryVisits c gX gY r z) := hk
    rw [mem_buildLights] at hk'
    obtain ⟨v, hv, hveq, hlk, hpass⟩ := hk'
    refine ⟨v, hv, hveq, ?_⟩
    unfold visitPasses at hpass
    simp only [Bool.and_eq_true] at hpass
    exact hpass.1.1

theorem C3_light_post_filter_witness :
    lookupGrid treeCore.elevationGrid (0, 0) = some 7 ∧
    (updateVisibility treeCore 0 0 none).2 = none ∧
    ((updateVisibility treeCore 0 0 none).1).elevation = some 7 := by
  refine ⟨by decide, ?_, ?_⟩
  · exact (C3_light_post_filter treeCore (Reachable.init treeImg 5 5 2)
      0 0 none 7 (by decide)).1
  · exact (C3_light_post_filter treeCore (Reachable.init treeImg 5 5 2)
      0 0 none 7 (by decide)).2.1

/-- Claim C4: opacity predicate composition.  The `lightPassesCallback`
opacity test blocks a cell iff the cell is in the active elevation's wall
set, has at least one tree-wall descriptor there, or is a FoW-blocker
cell; and the outcome of `updateVisibility` is unchanged under arbitrary
replacement of the `gridnav` and `tools_no_wards` sets — those two are
validity predicates and never participate in FOV blocking. -/
theorem C4_opacity_composition :
    (∀ (ew fow : List Cell) (tw : TWMap) (k : Cell),
      lightPasses ew fow tw k = false ↔
        k ∈ ew ∨ (∃ l, tw k = some l ∧ l ≠ []) ∨ k ∈ fow) ∧
    (∀ (c : Core) (g nw : List Cell) (gX gY : ℤ) (r : Option ℕ),
      ((updateVisibility { c with gridnav := g, tools_no_wards := nw }
          gX gY r).1).lights = ((updateVisibility c gX gY r).1).lights ∧
      (updateVisibility { c with gridnav := g, tools_no_wards := nw }
          gX gY r).2 = (updateVisibility c gX gY r).2) := by
  constructor
  · intro ew fow tw k
    exact lightPasses_eq_false_iff
  · intro c g nw gX gY r
    unfold updateVisibility
    dsimp only
    cases lookupGrid c.elevationGrid (gX, gY) with
    | none => exact ⟨rfl, rfl⟩
    | some z =>
      dsimp only
      cases c.treeWalls z with
      | none => exact ⟨rfl, rfl⟩
      | some tw => exact ⟨rfl, rfl⟩

/-- Claim C5: toggle idempotent pair.  From any reachable state, two
successive `toggleTree` calls at the same cell restore every tree's
standing flag, and restore, for every known elevation level, tree-wall
cache contents set-equal to the pre-toggle contents. -/
theorem C5_double_toggle (c : Core) (h : Reachable c) (x y : ℤ)
    (c₁ c₂ : Core) (b₁ b₂ : Bool)
    (h₁ : toggleTree c x y = some (c₁, b₁))
    (h₂ : toggleTree c₁ x y = some (c₂, b₂)) :
    (∀ u, c₂.tree_state u = c.tree_state u) ∧
    ∀ L ∈ c.elevationValues, ∀ (k : Cell) (t : TreeKey),
      (t ∈ twGet c₂ L k ↔ t ∈ twGet c L k) := by
  have hwf := reachable_wf h
  obtain ⟨c₁', b₁', he₁, hwf₁, hf₁, hs₁⟩ := toggleTree_ok c hwf x y
  rw [h₁] at he₁
  injection he₁ with hpair₁
  injection hpair₁ with hc₁ hb₁
  subst hc₁
  obtain ⟨c₂', b₂', he₂, hwf₂, hf₂, hs₂⟩ := toggleTree_ok c₁ hwf₁ x y
  rw [h₂] at he₂
  injection he₂ with hpair₂
  injection hpair₂ with hc₂ hb₂
  subst hc₂
  have hstate : ∀ u, c₂.tree_state u = c.tree_state u := by
    intro u
    rw [hs₂ u, hf₁.relations]
    by_cases hu : u ∈ (c.tree_relations (x, y)).getD []
    · rw [if_pos hu, hs₁ u, if_pos hu]
      have hmem := ((hwf.relationsMem (x, y) u).mp hu).1
      obtain ⟨b, hb⟩ := Option.isSome_iff_exists.mp
        ((hwf.treeStateDom u).mpr hmem)
      rw [hb]
      simp
    · rw [if_neg hu, hs₁ u, if_neg hu]
  have hfc : RegFrame c c₂ := RegFrame.comp hf₁ hf₂
  refine ⟨hstate, ?_⟩
  intro L hL k t
  have hL₂ : L ∈ c₂.elevationValues := by
    rw [hfc.values]
    exact hL
  rw [← List.count_pos_iff, ← List.count_pos_iff,
    hwf₂.wallsCount L hL₂ k t, hwf.wallsCount L hL k t]
  simp only [hfc.tree, hfc.elevs, hstate t]

theorem C5_double_toggle_witness :
    toggleTree flat5c 0 0 = some (flat5c, false) ∧
    flat5c.tree_state (1, 1) = flat5c.tree_state (1, 1) ∧
    ((1, 1) ∈ twGet flat5c 7 (1, 1) ↔ (1, 1) ∈ twGet flat5c 7 (1, 1)) := by
  have h₁ : toggleTree flat5c 0 0 = some (flat5c, false) := rfl
  have h := C5_double_toggle flat5c (Reachable.init flatImg 5 5 2) 0 0
    flat5c flat5c false false h₁ h₁
  exact ⟨h₁, h.1 (1, 1), h.2 7 (by decide) (1, 1) (1, 1)⟩

/-- Claim C6: elevation-wall definition and lazy caching.  The generated
wall set for threshold `E` holds exactly the cells with elevation
strictly above `E` having at least one 8-neighbor of elevation at most
`E`; the wall set a query uses is the cached one when present and the
freshly generated one otherwise; a query with active elevation `z` caches
the set it used under `z` and leaves every other cache entry unchanged. -/
theorem C6_elevation_walls (c : Core) (h : Reachable c) (E : ℤ) :
    (∀ k : Cell, k ∈ generateElevationWalls c.elevationGrid E ↔
      ∃ z, lookupGrid c.elevationGrid k = some z ∧ E < z ∧
        ∃ o ∈ neighborOffsets, ∃ z',
          lookupGrid c.elevationGrid (k.1 + o.1, k.2 + o.2) = some z' ∧
            z' ≤ E) ∧
    (c.elevationWalls E = none →
      activeEW c E = generateElevationWalls c.elevationGrid E) ∧
    (∀ l, c.elevationWalls E = some l → activeEW c E = l) ∧
    (∀ gX gY r z, lookupGrid c.elevationGrid (gX, gY) = some z →
      ((updateVisibility c gX gY r).1).elevationWalls z =
        some (activeEW c z) ∧
      (∀ E', E' ≠ z →
        ((updateVisibility c gX gY r).1).elevationWalls E' =
          c.elevationWalls E')) := by
  refine ⟨fun k => mem_generateElevationWalls (reachable_wf h).gridNodup,
    ?_, ?_, ?_⟩
  · intro hnone
    unfold activeEW
    rw [hnone]
    rfl
  · intro l hsome
    unfold activeEW
    rw [hsome]
    rfl
  · intro gX gY r z hz
    unfold updateVisibility
    dsimp only
    rw [hz]
    dsimp only
    cases c.treeWalls z with
    | none =>
      constructor
      · show (if z = z then some (activeEW c z)
          else c.elevationWalls z) = some (activeEW c z)
        rw [if_pos rfl]
      · intro E' hE'
        show (if E' = z then some (activeEW c z)
          else c.elevationWalls E') = c.elevationWalls E'
        rw [if_neg hE']
    | some tw =>
      constructor
      · show (if z = z then some (activeEW c z)
          else c.elevationWalls z) = some (activeEW c z)
        rw [if_pos rfl]
      · intro E' hE'
        show (if E' = z then some (activeEW c z)
          else c.elevationWalls E') = c.elevationWalls E'
        rw [if_neg hE']

theorem C6_elevation_walls_witness :
    lookupGrid flat5c.elevationGrid (2, 2) = some 7 ∧
    ((updateVisibility flat5c 2 2 none).1).elevationWalls 7 =
      some (activeEW flat5c 7) := by
  refine ⟨by decide, ?_⟩
  exact ((C6_elevation_walls flat5c (Reachable.init flatImg 5 5 2) 7).2.2.2
    2 2 none 7 (by decide)).1

/-- Claim C7: InvalidOrigin failure.  Querying `updateVisibility` on a
cell with no elevation entry throws (`TypeError` from
`this.elevationGrid[key].z`) before any field is written: the returned
state is exactly the pre-call state — no empty or corrupted light map is
produced. -/
theorem C7_invalid_origin (c : Core) (h : Reachable c) (gX gY : ℤ)
    (r : Option ℕ)
    (hmiss : lookupGrid c.elevationGrid (gX, gY) = none) :
    updateVisibility c gX gY r = (c, some JsError.typeError) := by
  unfold updateVisibility
  dsimp only
  rw [hmiss]

theorem C7_invalid_origin_witness :
    lookupGrid flat5c.elevationGrid (9, 9) = none ∧
    updateVisibility flat5c 9 9 none = (flat5c, some JsError.typeError) :=
  ⟨by decide, C7_invalid_origin flat5c (Reachable.init flatImg 5 5 2) 9 9
    none (by decide)⟩

set_option maxRecDepth 8192 in
/-- Claim C8: open-field visibility count.  On a freshly initialized flat
elevation grid with no trees and no FoW blockers, an unclipped
`updateVisibility(x, y, R)` query marks every cell within Chebyshev
distance `R` visible and `lightArea = min(2R+1, w) · min(2R+1, h)`; in
particular on the 260×260 flat instance, origin `(130, 130)` and `R = 5`
give `lightArea = 121`. -/
theorem C8_open_field :
    (∀ (img : Img) (w h rad R : ℕ) (x y e : ℤ),
      (∀ p ∈ bandScan w h, (bandPx img w 0 p).1 = e) →
      initTree img w h = [] → blackScan img w h 3 = [] →
      0 < R → (R : ℤ) ≤ x → x + R < (w : ℤ) →
      (R : ℤ) ≤ y → y + R < (h : ℤ) →
      ((updateVisibility (initCore img w h rad) x y (some R)).2 = none ∧
       (∀ k : Cell, cheb (k.1 - x, k.2 - y) ≤ R →
         k ∈ ((updateVisibility (initCore img w h rad) x y
           (some R)).1).lights) ∧
       ((updateVisibility (initCore img w h rad) x y
           (some R)).1).lightArea =
         min (2 * R + 1) w * min (2 * R + 1) h)) ∧
    ((updateVisibility (initCore flatImg 260 260 25) 130 130
        (some 5)).1).lightArea = 121 := by
  refine ⟨fun img w h rad R x y e hf ht hb hR hx hxw hy hyh =>
    openField img w h rad e hf ht hb R hR x y hx hxw hy hyh, ?_⟩
  have hflat : ∀ p ∈ bandScan 260 260, (bandPx flatImg 260 0 p).1 = 7 :=
    fun p _ => rfl
  have h260 := openField flatImg 260 260 25 7 hflat
    (initTree_flatImg 260 260) (blackScan_flatImg 260 260 3) 5
    (by norm_num) 130 130 (by norm_num) (by norm_num) (by norm_num)
    (by norm_num)
  have h121 : min (2 * 5 + 1) 260 * min (2 * 5 + 1) 260 = 121 := by
    norm_num
  have hfin := h260.2.2.trans h121
  exact hfin

theorem C8_open_field_witness :
    0 < 1 ∧
    ((updateVisibility (initCore flatImg 5 5 2) 2 2
        (some 1)).1).lightArea = min (2 * 1 + 1) 5 * min (2 * 1 + 1) 5 := by
  refine ⟨by decide, ?_⟩
  exact (C8_open_field.1 flatImg 5 5 2 1 2 2 7 (fun p _ => rfl)
    (initTree_flatImg 5 5) (blackScan_flatImg 5 5 3) (by decide)
    (by decide) (by decide) (by decide) (by decide)).2.2

/-- Claim C9 counterexample: the `key2pt` memo cache is neither cleared by
(re)initialization nor owned by the instance.  A cache entry for key
`(5, 5)` — outside the 2×2 grid being initialized, e.g. left behind by
another instance over a larger grid — survives the cache-priming pass of
a fresh initialization unchanged, and the primed cache differs from what
priming a fresh (empty, per-instance) cache would give: state from one
instance's lifetime is visible through another's. -/
theorem C9_cache_counterexample :
    ((5, 5), (5, 5)) ∈ primeKey2ptCache [((5, 5), (5, 5))] 2 2 ∧
    primeKey2ptCache [((5, 5), (5, 5))] 2 2 ≠ primeKey2ptCache [] 2 2 :=
  ⟨by decide, by decide⟩

/-- Claim C9, amended: `key2pt_cache` is a module-level store shared by
every instance of the process, and `initialize` never clears it: the
cache-priming pass overwrites or appends only the cells of the grid being
initialized, so every entry whose key lies outside that grid survives
unchanged, no key is ever removed, and `key2pt` returns any cached entry
unchanged, whichever instance created it. -/
theorem C9_cache_module_scope :
    (∀ (cache : Key2ptCache) (w h : ℕ) (p : Cell × Cell),
      p ∈ cache → p.1 ∉ primeCells w h →
        p ∈ primeKey2ptCache cache w h) ∧
    (∀ (cache : Key2ptCache) (w h : ℕ) (k : Cell),
      k ∈ cache.map (·.1) →
        k ∈ (primeKey2ptCache cache w h).map (·.1)) ∧
    (∀ (cache : Key2ptCache) (k : Cell) (p : Cell × Cell),
      cache.find? (fun e => e.1 = k) = some p →
        key2pt cache k = (p.2, cache)) := by
  refine ⟨?_, ?_, ?_⟩
  · intro cache w h p hp hout
    unfold primeKey2ptCache
    exact primeFold_untouched _ cache p hp hout
  · intro cache w h k hk
    unfold primeKey2ptCache
    exact primeFold_mem_keys _ cache k hk
  · intro cache k p hfind
    unfold key2pt
    rw [hfind]

theorem C9_cache_module_scope_witness :
    (((5, 5), (5, 5)) ∈ ([((5, 5), (5, 5))] : Key2ptCache)) ∧
    ((5, 5) : Cell) ∉ primeCells 2 2 ∧
    ((5, 5), (5, 5)) ∈ primeKey2ptCache [((5, 5), (5, 5))] 2 2 := by
  refine ⟨by decide, by decide, ?_⟩
  exact C9_cache_module_scope.1 [((5, 5), (5, 5))] 2 2 ((5, 5), (5, 5))
    (by decide) (by decide)

/-- Claim C10 counterexample: an explicit radius of `0` can produce a
zero-radius, single-cell visibility query.  After `setRadius(0)` the
fallback `radius || self.radius` resolves to `0`, and
`updateVisibility(2, 2, 0)` on the flat 5×5 instance succeeds with
`area = 1` and a light map holding only the origin cell — the state is
reachable through the public interface. -/
theorem C10_zero_radius_counterexample :
    Reachable flat5r0 ∧
    (updateVisibility flat5r0 2 2 (some 0)).2 = none ∧
    ((updateVisibility flat5r0 2 2 (some 0)).1).area = 1 ∧
    ((updateVisibility flat5r0 2 2 (some 0)).1).lights = [(2, 2)] :=
  ⟨Reachable.setR 0 (Reachable.init flatImg 5 5 2), by decide, by decide,
    by decide⟩

/-- Claim C10, amended: a radius argument of `0` (like an absent one)
falls back to the instance's current default radius —
`updateVisibility(gX, gY, 0)` computes exactly `updateVisibility(gX, gY)`
— and a positive explicit radius is used as supplied; but since the
default radius itself can be `0` (via `setRadius`), a radius argument of
`0` does not in general prevent a single-cell query. -/
theorem C10_radius_fallback (c : Core) (gX gY : ℤ) :
    effRadius c (some 0) = c.radius ∧
    effRadius c none = c.radius ∧
    updateVisibility c gX gY (some 0) = updateVisibility c gX gY none ∧
    (∀ R : ℕ, 0 < R → effRadius c (some R) = R) :=
  ⟨rfl, rfl, rfl, fun R hR => effRadius_pos c hR⟩

theorem C10_radius_fallback_witness :
    0 < 3 ∧ effRadius flat5c (some 3) = 3 ∧
    updateVisibility flat5c 2 2 (some 0) =
      updateVisibility flat5c 2 2 none :=
  ⟨by decide, (C10_radius_fallback flat5c 2 2).2.2.2 3 (by decide),
    (C10_radius_fallback flat5c 2 2).2.2.1⟩

end VisionSim
